import Mathlib

/-!
Verification of the esx-doctor server-side data engine: a shallow embedding of
the Go source (CSV indexer, series extractor, diagnostic threshold processor,
template store, session holder) together with theorems settling the frozen
claims about it.

Modelling conventions:
* Go `time.Time` becomes `GoTime`, an instant in milliseconds since the Unix
  epoch; the Go zero value is the instant of 0001-01-01T00:00:00Z, exactly as
  in Go, and `IsZero` compares against it.
* Go `float64` becomes `GoFloat`: an exact rational, NaN, or a signed
  infinity.  The program only compares, stores and filters values, so exact
  rationals are a faithful carrier for every finite value it manipulates.
* Go standard-library helpers that the repository calls (`encoding/csv` line
  reads with LazyQuotes, `time.ParseInLocation` over the six fixed layouts,
  `strconv.ParseFloat`, `sort.Search`) are modelled here from their documented
  behaviour, restricted to ASCII input; repository code is translated
  line-by-line.
* Files are lists of physical lines; each `String` holds one line's raw bytes
  including its terminator, so `String.length` models the byte length the Go
  code adds to its running offset.
-/

namespace EsxDoctor

/-- Model of Go `time.Time` as an instant in milliseconds since the Unix
epoch (UTC).  The program compares instants, converts them with `UnixMilli`,
and tests `IsZero`; all three are functions of this instant. -/
structure GoTime where
  ms : Int
deriving DecidableEq, Repr

/-- Days from civil date to 1970-01-01 (proleptic Gregorian), the standard
`days_from_civil` algorithm; used to give parsed wall-clock fields their
Unix-epoch instant, as Go's `time` package does. -/
def daysFromCivil (y m d : Int) : Int :=
  let y2 : Int := if m ≤ 2 then y - 1 else y
  let era : Int := y2.fdiv 400
  let yoe : Int := y2 - era * 400
  let mp : Int := (m + 9) % 12
  let doy : Int := (153 * mp + 2).fdiv 5 + d - 1
  let doe : Int := yoe * 365 + yoe.fdiv 4 - yoe.fdiv 100 + doy
  era * 146097 + doe - 719468

/-- Build a `GoTime` from wall-clock fields (UTC). -/
def mkGoTime (y mo d h mi s msec : Int) : GoTime :=
  ⟨((daysFromCivil y mo d) * 86400 + h * 3600 + mi * 60 + s) * 1000 + msec⟩

/-- The instant of Go's zero `time.Time{}`: 0001-01-01T00:00:00Z. -/
def goZeroTime : GoTime := mkGoTime 1 1 1 0 0 0 0

/-- Go `t.IsZero()`. -/
def GoTime.isZero (t : GoTime) : Bool := t == goZeroTime

/-- Go `a.Before(b)`. -/
def GoTime.before (a b : GoTime) : Bool := a.ms < b.ms

/-- Go `a.After(b)`. -/
def GoTime.after (a b : GoTime) : Bool := b.ms < a.ms

/-- Go `t.UnixMilli()`. -/
def GoTime.unixMilli (t : GoTime) : Int := t.ms

/-- Model of Go `float64` values as the program observes them: an exact
rational for every finite value, plus NaN and the two infinities. -/
inductive GoFloat where
  | finite (q : ℚ)
  | nan
  | posInf
  | negInf
deriving DecidableEq, Repr

/-- Source `NumberFinite` (part_001): true for neither NaN nor ±Inf. -/
def NumberFinite : GoFloat → Bool
  | .finite _ => true
  | _ => false

/-- Go `v > w` on float64, for the values the detectors compare (NaN
comparisons are false, infinities compare as extremes). -/
def GoFloat.gt : GoFloat → GoFloat → Bool
  | .finite a, .finite b => b < a
  | .nan, _ => false
  | _, .nan => false
  | .posInf, .posInf => false
  | .posInf, _ => true
  | _, .posInf => false
  | .negInf, _ => false
  | .finite _, .negInf => true

/-- Go `v < w` on float64. -/
def GoFloat.lt (a b : GoFloat) : Bool := GoFloat.gt b a

/-- ASCII model of Go `unicode.IsSpace` for the characters CSV cells hold. -/
def goIsSpace (c : Char) : Bool :=
  c == ' ' || c == '\t' || c == '\n' || c == '\r' || c == '\x0b' || c == '\x0c'

/-- Model of Go `strings.TrimSpace` on ASCII text. -/
def goTrimSpace (s : String) : String :=
  ⟨((s.toList.dropWhile goIsSpace).reverse.dropWhile goIsSpace).reverse⟩

/-- ASCII lower-casing, modelling Go `strings.ToLower` on the ASCII headers
and cells this program sees. -/
def goToLowerChar (c : Char) : Char :=
  if 'A' ≤ c ∧ c ≤ 'Z' then Char.ofNat (c.toNat + 32) else c

/-- Model of Go `strings.ToLower` on ASCII text. -/
def goToLower (s : String) : String := ⟨s.toList.map goToLowerChar⟩

/-- Read exactly `n` ASCII digits, returning their value and the remainder;
models the fixed-width numeric fields of Go's reference time layouts. -/
def readFixedNat : Nat → List Char → Nat → Option (Nat × List Char)
  | 0, cs, acc => some (acc, cs)
  | n + 1, c :: cs, acc =>
      if c.isDigit then readFixedNat n cs (acc * 10 + (c.toNat - 48)) else none
  | _ + 1, [], _ => none

/-- Expect one literal character. -/
def expectChar (c : Char) : List Char → Option (List Char)
  | d :: cs => if d == c then some cs else none
  | [] => none

/-- Read one or more digits (greedy), returning digit list and remainder. -/
def readDigits (cs : List Char) : List Char × List Char :=
  (cs.takeWhile Char.isDigit, cs.dropWhile Char.isDigit)

/-- Value of a digit list. -/
def digitsVal (ds : List Char) : Nat := ds.foldl (fun a c => a * 10 + (c.toNat - 48)) 0

/-- Optional fractional seconds: Go's `time.Parse` tolerates `.ddd...`
after the seconds field even when the layout does not contain it; the
result is truncated to milliseconds here (the program only ever uses
`UnixMilli`).  Returns (milliseconds, remainder). -/
def readOptFrac : List Char → Option (Nat × List Char)
  | '.' :: cs =>
      let (ds, rest) := readDigits cs
      if ds.length = 0 then none
      else some (digitsVal ((ds ++ ['0', '0', '0']).take 3), rest)
  | cs => some (0, cs)

/-- Range validation Go's time parser applies to the wall-clock fields. -/
def validClock (mo d h mi s : Nat) : Bool :=
  decide (1 ≤ mo ∧ mo ≤ 12 ∧ 1 ≤ d ∧ d ≤ 31 ∧ h ≤ 23 ∧ mi ≤ 59 ∧ s ≤ 59)

/-- Parse `HH:MM:SS` plus tolerated fraction; returns (h, mi, s, ms, rest). -/
def readClock (cs : List Char) : Option (Nat × Nat × Nat × Nat × List Char) := do
  let (h, cs) ← readFixedNat 2 cs 0
  let cs ← expectChar ':' cs
  let (mi, cs) ← readFixedNat 2 cs 0
  let cs ← expectChar ':' cs
  let (s, cs) ← readFixedNat 2 cs 0
  let (msec, cs) ← readOptFrac cs
  pure (h, mi, s, msec, cs)

/-- Layout `01/02/2006 15:04:05` (and, via the tolerated fraction, also
`01/02/2006 15:04:05.000`). -/
def parseLayoutMDY (cs : List Char) : Option GoTime := do
  let (mo, cs) ← readFixedNat 2 cs 0
  let cs ← expectChar '/' cs
  let (d, cs) ← readFixedNat 2 cs 0
  let cs ← expectChar '/' cs
  let (y, cs) ← readFixedNat 4 cs 0
  let cs ← expectChar ' ' cs
  let (h, mi, s, msec, cs) ← readClock cs
  if cs = [] ∧ validClock mo d h mi s then
    pure (mkGoTime y mo d h mi s msec)
  else none

/-- Layout `2006-01-02 15:04:05` (and `.000` via the tolerated fraction). -/
def parseLayoutYMD (cs : List Char) : Option GoTime := do
  let (y, cs) ← readFixedNat 4 cs 0
  let cs ← expectChar '-' cs
  let (mo, cs) ← readFixedNat 2 cs 0
  let cs ← expectChar '-' cs
  let (d, cs) ← readFixedNat 2 cs 0
  let cs ← expectChar ' ' cs
  let (h, mi, s, msec, cs) ← readClock cs
  if cs = [] ∧ validClock mo d h mi s then
    pure (mkGoTime y mo d h mi s msec)
  else none

/-- Time-zone suffix of RFC3339: `Z` or `±hh:mm`; returns offset seconds. -/
def readZone : List Char → Option (Int × List Char)
  | 'Z' :: cs => some (0, cs)
  | '+' :: cs => do
      let (h, cs) ← readFixedNat 2 cs 0
      let cs ← expectChar ':' cs
      let (m, cs) ← readFixedNat 2 cs 0
      pure ((h * 3600 + m * 60 : Nat), cs)
  | '-' :: cs => do
      let (h, cs) ← readFixedNat 2 cs 0
      let cs ← expectChar ':' cs
      let (m, cs) ← readFixedNat 2 cs 0
      pure (-((h * 3600 + m * 60 : Nat) : Int), cs)
  | _ => none

/-- Layouts `time.RFC3339` and `time.RFC3339Nano` (the fraction tolerance
makes both accept the same strings). -/
def parseLayoutRFC3339 (cs : List Char) : Option GoTime := do
  let (y, cs) ← readFixedNat 4 cs 0
  let cs ← expectChar '-' cs
  let (mo, cs) ← readFixedNat 2 cs 0
  let cs ← expectChar '-' cs
  let (d, cs) ← readFixedNat 2 cs 0
  let cs ← expectChar 'T' cs
  let (h, mi, s, msec, cs) ← readClock cs
  let (off, cs) ← readZone cs
  if cs = [] ∧ validClock mo d h mi s then
    pure ⟨(mkGoTime y mo d h mi s msec).ms - off * 1000⟩
  else none

/-- The fixed layout list of the source (`timeLayouts`, part_003). -/
def timeLayouts : List (String × (List Char → Option GoTime)) :=
  [("01/02/2006 15:04:05", parseLayoutMDY),
   ("01/02/2006 15:04:05.000", parseLayoutMDY),
   ("2006-01-02 15:04:05", parseLayoutYMD),
   ("2006-01-02 15:04:05.000", parseLayoutYMD),
   ("2006-01-02T15:04:05Z07:00", parseLayoutRFC3339),
   ("2006-01-02T15:04:05.999999999Z07:00", parseLayoutRFC3339)]

/-- Source `parseTimeValue` (part_003): trim, try the layouts in order,
return the parsed instant with the layout string that matched, or fail. -/
def parseTimeValue (s : String) : Option (GoTime × String) :=
  let t := (goTrimSpace s).toList
  timeLayouts.foldr
    (fun (layout : String × (List Char → Option GoTime)) acc =>
      match layout.2 t with
      | some tm => some (tm, layout.1)
      | none => acc)
    none

/-- Model of Go `strings.HasPrefix`. -/
def goStartsWith (s p : String) : Bool := p.toList.isPrefixOf s.toList

/-- Splitting loop for `goSplit`; the fuel (`length + 1`) dominates the
number of rounds since every round consumes at least one character. -/
def goSplitAux (sepl : List Char) : Nat → List Char → List Char → List (List Char) →
    List (List Char)
  | 0, cs, cur, acc => (cur.reverse ++ cs) :: acc
  | fuel + 1, cs, cur, acc =>
    match cs with
    | [] => cur.reverse :: acc
    | c :: rest =>
        if sepl.isPrefixOf cs then
          goSplitAux sepl fuel (cs.drop sepl.length) [] (cur.reverse :: acc)
        else goSplitAux sepl fuel rest (c :: cur) acc

/-- Model of Go `strings.Split` for a non-empty separator. -/
def goSplit (s sep : String) : List String :=
  let sepl := sep.toList
  if sepl.isEmpty then [s]
  else ((goSplitAux sepl (s.toList.length + 1) s.toList [] []).reverse).map
    fun cs => (⟨cs⟩ : String)

/-- Model of Go `bytes.TrimRight(line, "\r\n")`. -/
def goTrimRightCRLF (s : String) : String :=
  ⟨(s.toList.reverse.dropWhile (fun c => c == '\r' || c == '\n')).reverse⟩

/-- One CSV record from a single line, modelling `encoding/csv` with
`LazyQuotes = true` and `FieldsPerRecord = -1`: fields split on top-level
commas, a leading quote opens a quoted field, `""` inside quotes is a
literal quote.  Accumulates the current field and (reversed) field list. -/
def csvSplitAux : List Char → Bool → List Char → List (List Char) → List (List Char)
  | [], _, cur, acc => cur.reverse :: acc
  | '"' :: '"' :: rest, true, cur, acc => csvSplitAux rest true ('"' :: cur) acc
  | '"' :: rest, true, cur, acc => csvSplitAux rest false cur acc
  | c :: rest, true, cur, acc => csvSplitAux rest true (c :: cur) acc
  | ',' :: rest, false, cur, acc => csvSplitAux rest false [] (cur.reverse :: acc)
  | '"' :: rest, false, cur, acc => csvSplitAux rest true cur acc
  | c :: rest, false, cur, acc => csvSplitAux rest false (c :: cur) acc

/-- Source `readCSVLine` (part_003): strip the trailing `\r\n`, then decode
one lazy-quoted record.  With `LazyQuotes` the only failure `csv.Reader.Read`
reports on a single line is `io.EOF` on empty input, so the model fails
exactly on an empty (terminator-only) line. -/
def readCSVLine (line : String) : Option (List String) :=
  let t := goTrimRightCRLF line
  if t = "" then none
  else some (((csvSplitAux t.toList false [] []).reverse).map fun cs => (⟨cs⟩ : String))

/-- Exponent suffix of `strconv.ParseFloat` input: empty, or `[eE][+-]?digits`. -/
def parseExpPart (mant : ℚ) : List Char → Option ℚ
  | [] => some mant
  | e :: rest =>
      if e == 'e' || e == 'E' then
        let (neg, rest) := match rest with
          | '+' :: r => (false, r)
          | '-' :: r => (true, r)
          | r => (false, r)
        let (ds, rest) := readDigits rest
        if ds.length = 0 ∨ rest ≠ [] then none
        else some (if neg then mant / (10 : ℚ) ^ digitsVal ds else mant * (10 : ℚ) ^ digitsVal ds)
      else none

/-- Decimal part of `strconv.ParseFloat`: `digits[.digits]` or `.digits`,
at least one digit, then the optional exponent.  The value is kept exact as
a rational. -/
def parseDecimalQ (cs : List Char) : Option ℚ :=
  let (ip, r1) := readDigits cs
  match r1 with
  | '.' :: r2 =>
      let (fp, r3) := readDigits r2
      if ip.length = 0 ∧ fp.length = 0 then none
      else parseExpPart ((digitsVal ip : ℚ) + (digitsVal fp : ℚ) / (10 : ℚ) ^ fp.length) r3
  | _ => if ip.length = 0 then none else parseExpPart (digitsVal ip : ℚ) r1

/-- Model of Go `strconv.ParseFloat(s, 64)` on the decimal and special forms
CSV cells carry: optional sign, then `inf`/`infinity` (case-insensitive),
or unsigned `nan`, or a decimal number with optional exponent.  Finite
values are exact rationals. -/
def parseGoFloat (cs : List Char) : Option GoFloat :=
  let lowered : String := ⟨cs.map goToLowerChar⟩
  if lowered = "nan" then some .nan
  else
    let (neg, rest) := match cs with
      | '-' :: r => (true, r)
      | '+' :: r => (false, r)
      | r => (false, r)
    let lowrest : String := ⟨rest.map goToLowerChar⟩
    if lowrest = "inf" ∨ lowrest = "infinity" then
      some (if neg then .negInf else .posInf)
    else
      (parseDecimalQ rest).map fun q => .finite (if neg then -q else q)

/-- Source `parseFloatValue` (part_003): trim; empty or unparseable input
reports failure (the Go function returns `(NaN, false)` there). -/
def parseFloatValue (s : String) : Option GoFloat :=
  let t := goTrimSpace s
  if t = "" then none else parseGoFloat t.toList

/-- Source `parseDelimitedFloatValues` (part_003): the multi-home decoder —
trim, split on the delimiter, require at least two parts, every part
trimmed, non-empty and parseable. -/
def parseDelimitedFloatValues (s delim : String) : Option (List GoFloat) :=
  let t := goTrimSpace s
  if t = "" then none
  else
    let parts := goSplit t delim
    if parts.length < 2 then none
    else parts.mapM fun p =>
      let tp := goTrimSpace p
      if tp = "" then none else parseGoFloat tp.toList

/-- Source `IndexEntry` (part_003).  The Go fields are non-negative `int64`
counters, modelled as `Nat`. -/
structure IndexEntry where
  row : Nat
  offset : Nat
  time : GoTime
deriving DecidableEq, Repr

/-- Source `DataFile` (part_003). -/
structure DataFile where
  path : String
  label : String
  ownedTemp : Bool
  columns : List String
  index : List IndexEntry
  rows : Nat
  startTime : GoTime
  endTime : GoTime
  dataStartOffset : Nat
  timeLayout : String
deriving DecidableEq, Repr

/-- Source constant `indexStride`. -/
def indexStride : Nat := 1000

/-- Intermediate state of the `buildIndex` scan loop. -/
structure BuildState where
  offset : Nat
  row : Nat
  df : DataFile
deriving Repr

/-- One iteration of the `buildIndex` data-line loop (part_003 lines
247-287): on decode failure only the offset advances; on success the row
counter increments, the timestamp is attempted, `startTime`/`endTime`/
`timeLayout` are updated on parse success, and an index entry is appended
at row 1 and every `indexStride`-th row when the timestamp parsed. -/
def buildStep (s : BuildState) (line : String) : BuildState :=
  match readCSVLine line with
  | none => { s with offset := s.offset + line.length }
  | some record =>
    if record.length = 0 then { s with offset := s.offset + line.length }
    else
      let row := s.row + 1
      let df :=
        match parseTimeValue (record.headD "") with
        | some (timestamp, layout) =>
            let df := s.df
            let df := if df.timeLayout = "" then { df with timeLayout := layout } else df
            let df := if row = 1 then { df with startTime := timestamp } else df
            let df := { df with endTime := timestamp }
            if row = 1 ∨ row % indexStride = 0 then
              { df with index := df.index ++ [⟨row, s.offset, timestamp⟩] }
            else df
        | none => s.df
      { offset := s.offset + line.length, row := row, df := df }

/-- Source `buildIndex` (part_003): the file is its list of physical lines
(terminators included in each `String`).  Empty file and undecodable or
empty header fail; otherwise the data lines are scanned by `buildStep` and
the default time layout is filled in when no row ever parsed. -/
def buildIndex (path : String) (file : List String) : Except String DataFile :=
  match file with
  | [] => .error "empty file"
  | headerLine :: dataLines =>
    match readCSVLine headerLine with
    | none => .error "failed to parse header"
    | some header0 =>
      if header0.length = 0 then .error "empty header"
      else
        let header := "Time" :: header0.tail
        let df0 : DataFile :=
          { path := path, label := path, ownedTemp := false, columns := header,
            index := [], rows := 0, startTime := goZeroTime, endTime := goZeroTime,
            dataStartOffset := headerLine.length, timeLayout := "" }
        let final := dataLines.foldl buildStep
          { offset := headerLine.length, row := 0, df := df0 }
        let df := { final.df with rows := final.row }
        let df := if df.timeLayout = "" then { df with timeLayout := "01/02/2006 15:04:05" }
                  else df
        .ok df

/-- Binary-search loop of Go `sort.Search` (fuel-bounded; `n + 1` rounds
always suffice since the interval halves each round). -/
def goSortSearchAux (f : Nat → Bool) : Nat → Nat → Nat → Nat
  | 0, i, _ => i
  | fuel + 1, i, j =>
      if i < j then
        let h := (i + j) / 2
        if !f h then goSortSearchAux f fuel (h + 1) j else goSortSearchAux f fuel i h
      else i

/-- Go `sort.Search(n, f)`. -/
def goSortSearch (n : Nat) (f : Nat → Bool) : Nat := goSortSearchAux f (n + 1) 0 n

/-- Default entry used for the (in the program unreachable) out-of-range
index reads of the search helpers. -/
def defaultEntry : IndexEntry := ⟨0, 0, goZeroTime⟩

/-- Source `DataFile.findOffset` (part_003): offset and row to start the
scan at — the largest index entry strictly before `t`, else the data start. -/
def DataFile.findOffset (df : DataFile) (t : GoTime) : Nat × Nat :=
  if df.index.length = 0 ∨ t.isZero then (df.dataStartOffset, 1)
  else
    let idx := goSortSearch df.index.length
      (fun i => !((df.index.getD i defaultEntry).time.before t))
    if idx = 0 then (df.dataStartOffset, 1)
    else
      let entry := df.index.getD (idx - 1) defaultEntry
      (entry.offset, entry.row)

/-- Source `DataFile.estimateRows` (part_003): index-based estimate of the
number of rows between `start` and `stop`. -/
def DataFile.estimateRows (df : DataFile) (start stop : GoTime) : Nat :=
  if df.index.length < 2 then df.rows
  else if start.isZero ∧ stop.isZero then df.rows
  else
    let startRow :=
      if start.isZero then 1
      else
        let idx := goSortSearch df.index.length
          (fun i => !((df.index.getD i defaultEntry).time.before start))
        if 0 < idx then (df.index.getD (idx - 1) defaultEntry).row else 1
    let endRow :=
      if stop.isZero then df.rows
      else
        let idx := goSortSearch df.index.length
          (fun i => !((df.index.getD i defaultEntry).time.before stop))
        if 0 < idx then (df.index.getD (idx - 1) defaultEntry).row else df.rows
    if endRow < startRow then 0 else endRow - startRow + 1

/-- Source `SeriesPayload` (part_003). -/
structure SeriesPayload where
  name : String
  values : List GoFloat
deriving DecidableEq, Repr

/-- Source `SeriesResponse` (part_003); `startMs`/`endMs` are the Go
`Start`/`End` fields. -/
structure SeriesResponse where
  times : List Int
  series : List SeriesPayload
  startMs : Int
  endMs : Int
  rows : Nat
deriving DecidableEq, Repr

/-- Apply `f` at position `i` of a list, identity when out of range
(models an in-range Go slice element assignment). -/
def listModify (l : List SeriesPayload) (i : Nat) (f : SeriesPayload → SeriesPayload) :
    List SeriesPayload :=
  match l.get? i with
  | some a => l.set i (f a)
  | none => l

/-- Go `strings.Index(s, sub)` restricted to ASCII (char = byte). -/
def goIndex (s sub : String) : Int :=
  let sl := s.toList
  let subl := sub.toList
  match ((List.range (sl.length + 1)).filter fun i => subl.isPrefixOf (sl.drop i)).head? with
  | some i => (i : Int)
  | none => -1

/-- Go `strings.LastIndex(s, sub)` restricted to ASCII. -/
def goLastIndex (s sub : String) : Int :=
  let sl := s.toList
  let subl := sub.toList
  match ((List.range (sl.length + 1)).filter fun i => subl.isPrefixOf (sl.drop i)).getLast? with
  | some i => (i : Int)
  | none => -1

/-- The base-name computation for a new sibling series (part_003 lines
487-492): take the first target's name and strip a trailing
`" [home N]"` suffix when `strings.LastIndex` finds one at p > 0. -/
def stripHomeName (base : String) : String :=
  let p := goLastIndex base " [home "
  if 0 < p then ⟨base.toList.take p.toNat⟩ else base

/-- Mutable state of the `extractSeries` scan loop. -/
structure ExtractState where
  times : List Int
  series : List SeriesPayload
  seriesMap : List (List Nat)
  validCounts : List Nat
  row : Nat
  kept : Nat
deriving Repr

/-- The sibling-growing `for len(targets) < len(values)` loop of
`extractSeries` (part_003 lines 484-504), fuel-bounded by the number of
decoded home values (the loop adds one target per round). -/
def growTargets (idx : Int) (currentPos need : Nat) :
    Nat → List SeriesPayload → List Nat → List Nat →
    List SeriesPayload × List Nat × List Nat
  | 0, series, targets, vc => (series, targets, vc)
  | fuel + 1, series, targets, vc =>
      if targets.length < need then
        let nextHome := targets.length + 1
        let name :=
          if 0 < targets.length then
            let base := ((series.getD (targets.headD 0)
              ⟨"", []⟩).name)
            stripHomeName base ++ " [home " ++ toString nextHome ++ "]"
          else ""
        let name :=
          if name = "" then "col_" ++ toString idx ++ " [home " ++ toString nextHome ++ "]"
          else name
        let sp : SeriesPayload := ⟨name, List.replicate (currentPos + 1) (.finite 0)⟩
        growTargets idx currentPos need fuel (series ++ [sp])
          (targets ++ [series.length]) (vc ++ [0])
      else (series, targets, vc)

/-- Write one home value into its target series slot and bump the valid
count (part_003 lines 506-509). -/
def writeHomeVals (currentPos : Nat) (targets : List Nat) :
    List (Nat × GoFloat) → List SeriesPayload → List Nat →
    List SeriesPayload × List Nat
  | [], series, vc => (series, vc)
  | (vi, val) :: rest, series, vc =>
      let t := targets.getD vi 0
      let series := listModify series t
        (fun sp => { sp with values := sp.values.set currentPos val })
      let vc := vc.set t (vc.getD t 0 + 1)
      writeHomeVals currentPos targets rest series vc

/-- Per-column body of the emission block (part_003 lines 476-517):
multi-home decode grows/renames sibling series and writes every home,
otherwise a scalar parse writes the single slot; failures leave the
zero slot and the valid count untouched. -/
def emitCol (record : List String) (currentPos : Nat) (i : Nat) (idx : Int)
    (st : List SeriesPayload × List (List Nat) × List Nat) :
    List SeriesPayload × List (List Nat) × List Nat :=
  let (series, seriesMap, vc) := st
  if 0 ≤ idx ∧ idx.toNat < record.length then
    let raw := record.getD idx.toNat ""
    match parseDelimitedFloatValues raw "/" with
    | some values =>
        let targets := seriesMap.getD i []
        let series :=
          if targets.length = 1 ∧ 1 < values.length then
            listModify series (targets.headD 0)
              (fun sp => { sp with name := sp.name ++ " [home 1]" })
          else series
        let (series, targets, vc) :=
          growTargets idx currentPos values.length values.length series targets vc
        let seriesMap := seriesMap.set i targets
        let (series, vc) :=
          writeHomeVals currentPos targets values.enum series vc
        (series, seriesMap, vc)
    | none =>
        match parseFloatValue raw with
        | some v =>
            let t := (seriesMap.getD i []).headD 0
            let series := listModify series t
              (fun sp => { sp with values := sp.values.set currentPos v })
            let vc := vc.set t (vc.getD t 0 + 1)
            (series, seriesMap, vc)
        | none => (series, seriesMap, vc)
  else (series, seriesMap, vc)

/-- Emission of one kept row (part_003 lines 469-519): append the
timestamp, give every existing series a fresh 0.0 slot, then run the
per-column body over the requested columns. -/
def emitRow (cols : List Int) (timestamp : GoTime) (record : List String)
    (st : ExtractState) : ExtractState :=
  let times := st.times ++ [timestamp.unixMilli]
  let currentPos := times.length - 1
  let series := st.series.map fun sp => { sp with values := sp.values ++ [.finite 0] }
  let (series, seriesMap, vc) :=
    (cols.enum).foldl (fun acc (p : Nat × Int) => emitCol record currentPos p.1 p.2 acc)
      (series, st.seriesMap, st.validCounts)
  { st with times := times, series := series, seriesMap := seriesMap,
            validCounts := vc, kept := st.kept + 1 }

/-- The per-line scan loop of `extractSeries` (part_003 lines 430-525):
decode failures are skipped without advancing the row counter, timestamp
failures and pre-window rows advance it, a post-window timestamp stops the
scan, and in-window rows at the decimation stride are emitted. -/
def extractLoop (cols : List Int) (start stop : GoTime) (step startRow : Nat) :
    List String → ExtractState → ExtractState
  | [], st => st
  | line :: rest, st =>
    match readCSVLine line with
    | none => extractLoop cols start stop step startRow rest st
    | some record =>
      if record.length = 0 then extractLoop cols start stop step startRow rest st
      else
        match parseTimeValue (record.headD "") with
        | none => extractLoop cols start stop step startRow rest { st with row := st.row + 1 }
        | some (timestamp, _) =>
          if !start.isZero ∧ timestamp.before start then
            extractLoop cols start stop step startRow rest { st with row := st.row + 1 }
          else if !stop.isZero ∧ timestamp.after stop then st
          else
            let st' := if (st.row - startRow) % step = 0
                       then emitRow cols timestamp record st else st
            extractLoop cols start stop step startRow rest { st' with row := st'.row + 1 }

/-- Position the scan at a byte offset: drop the physical lines that lie
wholly before `off`.  The offsets `extractSeries` seeks to are always line
starts of the same file (they come from `buildIndex`), where this agrees
with the Go `Seek`. -/
def seekLines : List String → Nat → List String
  | [], _ => []
  | l :: ls, off =>
      if off = 0 then l :: ls
      else if l.length ≤ off then seekLines ls (off - l.length)
      else l :: ls

/-- The decimation stride (part_003 lines 409-416): `estimated/maxPoints`
floored, clamped to at least 1, and only active when `maxPoints > 0` and
the estimate exceeds it. -/
def decimationStep (estimated : Nat) (maxPoints : Int) : Nat :=
  if 0 < maxPoints ∧ (maxPoints : Int) < (estimated : Int) then
    max (estimated / maxPoints.toNat) 1
  else 1

/-- The initial scan state of `extractSeries` (part_003 lines 394-407,
424): one empty payload per requested column named from the header, the
identity series map, zero valid counts, and the row counter at the seek
row. -/
def extractInit (df : DataFile) (cols : List Int) (startRow : Nat) : ExtractState :=
  { times := []
    series := cols.map fun (idx : Int) =>
      ({ name := if 0 ≤ idx ∧ idx.toNat < df.columns.length
                 then df.columns.getD idx.toNat "" else ""
         values := [] } : SeriesPayload)
    seriesMap := (List.range cols.length).map fun i => [i]
    validCounts := cols.map fun _ => 0
    row := startRow
    kept := 0 }

/-- Source `DataFile.extractSeries` (part_003 lines 393-540) over the
file's physical lines (header first).  I/O errors of `os.Open`/`Seek` are
outside the model; every other path of the Go function is represented. -/
def DataFile.extractSeries (df : DataFile) (file : List String) (cols : List Int)
    (start stop : GoTime) (maxPoints : Int) : SeriesResponse :=
  let estimated := df.estimateRows start stop
  let step := decimationStep estimated maxPoints
  let (startOffset, startRow) := df.findOffset start
  let scanned := seekLines file startOffset
  let stF := extractLoop cols start stop step startRow scanned
    (extractInit df cols startRow)
  let startMs := match stF.times.head? with | some t => t | none => 0
  let endMs := match stF.times.getLast? with | some t => t | none => 0
  let filtered := (stF.series.enum.filter fun p =>
    p.1 < stF.validCounts.length ∧ 0 < stF.validCounts.getD p.1 0).map (·.2)
  { times := stF.times, series := filtered, startMs := startMs, endMs := endMs,
    rows := stF.kept }

/-- Source `TemplateCondition` (part_001). -/
structure TemplateCondition where
  field : String
  op : String
  value : String
deriving DecidableEq, Repr

/-- Source `TemplateFilter` (part_001). -/
structure TemplateFilter where
  logic : String
  conditions : List TemplateCondition
deriving DecidableEq, Repr

/-- Source `DetectorTemplate` (part_001); numeric JSON fields carried as
exact rationals / integers (`dtype` is the Go `Type` field). -/
structure DetectorTemplate where
  dtype : String
  threshold : ℚ
  comparison : String
  minConsecutive : Int
  minSwitches : Int
  minGap : ℚ
  lowThreshold : ℚ
  highThreshold : ℚ
  includeAttributeEquals : List String
  includeObjectEquals : List String
  excludeInstanceContains : List String
  excludeInstanceRegex : List String
  filter : TemplateFilter
deriving DecidableEq, Repr

/-- Source `DiagnosticTemplate` (part_001). -/
structure DiagnosticTemplate where
  id : String
  name : String
  description : String
  enabled : Bool
  severity : String
  detector : DetectorTemplate
deriving DecidableEq, Repr

/-- Source `DiagnosticFinding` (part_001); `startMs`/`endMs` are the Go
`Start`/`End` int64 fields (0 = JSON-omitted zero value). -/
structure DiagnosticFinding where
  templateId : String
  templateName : String
  title : String
  severity : String
  reportKey : String
  attributeLabel : String
  instances : List String
  startMs : Int
  endMs : Int
  summary : String
deriving DecidableEq, Repr

/-- Source `parsedColumn` (part_001); `instanceName` is the Go `Instance`
field. -/
structure ParsedColumn where
  idx : Int
  raw : String
  object : String
  instanceName : String
  counter : String
  attributeLabel : String
deriving DecidableEq, Repr

/-- Source `parsePDHColumnBackend` (part_001 lines 95-137): split a PDH
header `\\host\Object(Instance)\Counter`; any header without the `\\`
prefix or with fewer than five backslash-delimited parts gets the fallback
(note the fallback's attributeLabel is the raw header itself). -/
def parsePDHColumnBackend (raw : String) (idx : Int) : ParsedColumn :=
  let fallback : ParsedColumn :=
    { idx := idx, raw := raw, object := "Other", instanceName := "Global",
      counter := raw, attributeLabel := raw }
  if !(goStartsWith raw "\\\\") then fallback
  else
    let parts := goSplit raw "\\"
    if parts.length < 5 then fallback
    else
      let objectPart := parts.getD 3 ""
      let counter := String.intercalate "\\" (parts.drop 4)
      let p := goIndex objectPart "("
      let objectBase := if 0 ≤ p then ⟨objectPart.toList.take p.toNat⟩ else objectPart
      let instanceName :=
        if 0 ≤ p then
          let e := goLastIndex objectPart ")"
          if p < e then ⟨(objectPart.toList.take e.toNat).drop (p.toNat + 1)⟩
          else "Global"
        else "Global"
      let objectBase := if goTrimSpace objectBase = "" then "Other" else objectBase
      let counter := if goTrimSpace counter = "" then raw else counter
      { idx := idx, raw := raw, object := objectBase, instanceName := instanceName,
        counter := counter, attributeLabel := objectBase ++ ": " ++ counter }

/-- Source `thresholdEntityState` (part_001); Go zero value: lengths 0,
zero times, peaks 0.0. -/
structure ThresholdEntityState where
  currLen : Nat
  currStart : GoTime
  currPeak : GoFloat
  bestLen : Nat
  bestStart : GoTime
  bestEnd : GoTime
  bestPeak : GoFloat
deriving DecidableEq, Repr

/-- The zero `thresholdEntityState` the processor is built with. -/
def initThresholdState : ThresholdEntityState :=
  { currLen := 0, currStart := goZeroTime, currPeak := .finite 0,
    bestLen := 0, bestStart := goZeroTime, bestEnd := goZeroTime,
    bestPeak := .finite 0 }

/-- Source `thresholdProcessor` (part_001). -/
structure ThresholdProcessor where
  template : DiagnosticTemplate
  reportKey : String
  attributeLabel : String
  compareLess : Bool
  indexes : List Int
  labels : List String
  threshold : ℚ
  minConsecutive : Nat
  states : List ThresholdEntityState
deriving Repr

/-- Source `thresholdProcessor.reset` (part_001 lines 233-243): promote the
current streak to best when strictly longer, recording `ts` as the streak
end, then zero the current streak. -/
def thresholdReset (s : ThresholdEntityState) (ts : GoTime) : ThresholdEntityState :=
  let s :=
    if s.bestLen < s.currLen then
      { s with bestLen := s.currLen, bestStart := s.currStart,
               bestEnd := ts, bestPeak := s.currPeak }
    else s
  { s with currLen := 0, currPeak := .finite 0 }

/-- Per-cell body of `thresholdProcessor.onRow` (part_001 lines 208-230)
for an in-range cell: unparseable or non-finite values reset the streak;
a value passing the comparison extends it (initializing start and peak at
length 0, otherwise updating the peak in the compare direction); a failing
value resets. -/
def thresholdCell (compareLess : Bool) (threshold : ℚ)
    (s : ThresholdEntityState) (ts : GoTime) (cell : String) : ThresholdEntityState :=
  match parseFloatValue cell with
  | none => thresholdReset s ts
  | some v =>
    if !NumberFinite v then thresholdReset s ts
    else
      let matched := if compareLess then v.lt (.finite threshold) else v.gt (.finite threshold)
      if matched then
        let s :=
          if s.currLen = 0 then { s with currStart := ts, currPeak := v }
          else if (!compareLess ∧ v.gt s.currPeak) ∨ (compareLess ∧ v.lt s.currPeak) then
            { s with currPeak := v }
          else s
        { s with currLen := s.currLen + 1 }
      else thresholdReset s ts

/-- Source `thresholdProcessor.onRow` (part_001 lines 204-231): each
matched column index reads its cell; out-of-range indices are skipped
without touching the state. -/
def thresholdOnRow (p : ThresholdProcessor) (ts : GoTime) (record : List String) :
    ThresholdProcessor :=
  { p with states := (p.indexes.zip p.states).map fun pr =>
      if 0 ≤ pr.1 ∧ pr.1.toNat < record.length then
        thresholdCell p.compareLess p.threshold pr.2 ts (record.getD pr.1.toNat "")
      else pr.2 }

/-- Feed a whole row sequence through `onRow`. -/
def thresholdRun (p : ThresholdProcessor) (rows : List (GoTime × List String)) :
    ThresholdProcessor :=
  rows.foldl (fun p r => thresholdOnRow p r.1 r.2) p

/-- The finding built for one qualifying column in `finalize` (part_001
lines 251-276); `none` when the best streak is below `minConsecutive`.
The `%.2f` numeric rendering of the Go summary string is abstracted. -/
def thresholdEmit (p : ThresholdProcessor) (s : ThresholdEntityState)
    (label : String) : Option DiagnosticFinding :=
  if s.bestLen < p.minConsecutive then none
  else
    some
      { templateId := p.template.id, templateName := p.template.name,
        title := p.template.name, severity := p.template.severity,
        reportKey := p.reportKey, attributeLabel := p.attributeLabel,
        instances := [label],
        startMs := if s.bestStart.isZero then 0 else s.bestStart.unixMilli,
        endMs := if s.bestEnd.isZero then 0 else s.bestEnd.unixMilli,
        summary := "Sustained threshold breach: peak " ++
          (if p.compareLess then "below" else "above") ++
          " threshold for " ++ toString s.bestLen ++ " consecutive samples." }

/-- Source `thresholdProcessor.finalize` (part_001 lines 245-282): close
every open streak against the zero time, emit one finding per column whose
best streak reaches `minConsecutive`, and truncate to 20 findings. -/
def thresholdFinalize (p : ThresholdProcessor) : List DiagnosticFinding :=
  let states := p.states.map fun s => thresholdReset s goZeroTime
  let findings := (states.zip p.labels).filterMap fun pr => thresholdEmit p pr.1 pr.2
  findings.take 20

/-- The severity rank Go builds in `runDiagnostics`' sort comparator
(part_001 lines 962-964): a map lookup whose missing-key zero value gives
every unknown severity rank 0. -/
def sevRank (s : String) : Nat :=
  if s = "critical" then 0
  else if s = "high" then 1
  else if s = "medium" then 2
  else if s = "low" then 3
  else 0

/-- Go `a < b` on strings: lexicographic byte order (ASCII model: char
order). -/
def goStringLt : List Char → List Char → Bool
  | [], [] => false
  | [], _ :: _ => true
  | _ :: _, [] => false
  | a :: as, b :: bs => if a < b then true else if b < a then false else goStringLt as bs

/-- The `sort.Slice` comparator of `runDiagnostics` (part_001 lines
960-967): distinct severity strings compare by the rank of their
lower-cased forms, equal severity strings tie-break on the title. -/
def findingLess (a b : DiagnosticFinding) : Bool :=
  if a.severity ≠ b.severity then
    decide (sevRank (goToLower a.severity) < sevRank (goToLower b.severity))
  else goStringLt a.title.toList b.title.toList

/-- Source `normalizeTemplate` (part_004 lines 92-109). -/
def normalizeTemplate (t : DiagnosticTemplate) : DiagnosticTemplate :=
  let t := { t with id := goTrimSpace t.id, name := goTrimSpace t.name,
                    description := goTrimSpace t.description }
  let t := if goTrimSpace t.severity = "" then { t with severity := "medium" } else t
  let t := if goTrimSpace t.detector.dtype = "" then
      { t with detector := { t.detector with dtype := "threshold_sustained" } } else t
  let t := if goTrimSpace t.detector.filter.logic = "" then
      { t with detector :=
          { t.detector with filter := { t.detector.filter with logic := "and" } } }
    else t
  if t.detector.minConsecutive ≤ 0 then
    { t with detector := { t.detector with minConsecutive := 6 } }
  else t

/-- Character loop of `templateIDFromName` (part_004 lines 169-181):
keep `a-z`/`0-9`, collapse every other run into one dot. -/
def slugAux : List Char → Bool → List Char → List Char
  | [], _, acc => acc.reverse
  | c :: cs, lastDot, acc =>
      if ('a' ≤ c ∧ c ≤ 'z') ∨ ('0' ≤ c ∧ c ≤ '9') then slugAux cs false (c :: acc)
      else if !lastDot then slugAux cs true ('.' :: acc)
      else slugAux cs lastDot acc

/-- Go `strings.Trim(s, ".")`. -/
def trimDots (cs : List Char) : List Char :=
  ((cs.dropWhile (· == '.')).reverse.dropWhile (· == '.')).reverse

/-- Source `templateIDFromName` (part_004 lines 164-187).  The Go function
reads `time.Now().UnixNano()` for the empty-name fallbacks; the clock value
is passed explicitly here. -/
def templateIDFromName (name : String) (nowNanos : Nat) : String :=
  let name := goTrimSpace (goToLower name)
  if name = "" then "custom." ++ toString nowNanos
  else
    let id : String := ⟨trimDots (slugAux name.toList false [])⟩
    let id := if id = "" then "custom." ++ toString nowNanos else id
    "custom." ++ id

/-- Source `diagnosticTemplateStore` (part_004): the two ID-keyed maps are
association lists; `persisted` abstracts the JSON document on disk, which
`persistCustomLocked` rewrites from the custom map. -/
structure TemplateStoreState where
  path : String
  builtins : List (String × DiagnosticTemplate)
  custom : List (String × DiagnosticTemplate)
  persisted : List (String × DiagnosticTemplate)
deriving Repr

/-- Go map read `m[k]` on the association-list model. -/
def assocLookup (m : List (String × DiagnosticTemplate)) (k : String) :
    Option DiagnosticTemplate :=
  match m with
  | [] => none
  | kv :: rest => if kv.1 = k then some kv.2 else assocLookup rest k

/-- Go map insert `m[k] = v` on the association-list model. -/
def assocPut (m : List (String × DiagnosticTemplate)) (k : String)
    (v : DiagnosticTemplate) : List (String × DiagnosticTemplate) :=
  if (assocLookup m k).isSome then m.map fun kv => if kv.1 = k then (k, v) else kv
  else m ++ [(k, v)]

/-- Go map delete `delete(m, k)` on the association-list model. -/
def assocErase (m : List (String × DiagnosticTemplate)) (k : String) :
    List (String × DiagnosticTemplate) :=
  m.filter fun kv => kv.1 ≠ k

namespace DiagnosticTemplateStore

/-- Source `diagnosticTemplateStore.upsert` (part_004 lines 189-210):
normalize, derive an ID from the name when empty, reject empty names and
detector types, reject builtin IDs (read-only), otherwise store into the
custom map and re-persist it. -/
def upsert (st : TemplateStoreState) (t : DiagnosticTemplate) (nowNanos : Nat) :
    TemplateStoreState × Except String DiagnosticTemplate :=
  let t := normalizeTemplate t
  let t := if t.id = "" then { t with id := templateIDFromName t.name nowNanos } else t
  if goTrimSpace t.name = "" then (st, .error "template name is required")
  else if goTrimSpace t.detector.dtype = "" then (st, .error "detector type is required")
  else if (assocLookup st.builtins t.id).isSome then
    (st, .error "built-in template is read-only; duplicate to customize")
  else
    let custom := assocPut st.custom t.id t
    ({ st with custom := custom, persisted := custom }, .ok t)

/-- Source `diagnosticTemplateStore.delete` (part_004 lines 212-224):
reject empty and builtin IDs; otherwise drop the ID from the custom map
(a no-op when absent) and re-persist. -/
def delete (st : TemplateStoreState) (id : String) :
    TemplateStoreState × Option String :=
  let id := goTrimSpace id
  if id = "" then (st, some "template id is required")
  else if (assocLookup st.builtins id).isSome then
    (st, some "built-in templates cannot be deleted")
  else
    let custom := assocErase st.custom id
    ({ st with custom := custom, persisted := custom }, none)

end DiagnosticTemplateStore

/-- Source `Session.Replace` (part_003 lines 75-87) together with its
filesystem effect: the session's file pointer becomes `upd`; the old
backing file is removed exactly when the old file exists, is `ownedTemp`,
has a non-empty path, and that path differs from the new file's (or the
new file is nil).  The filesystem is the list of existing paths. -/
def sessionReplace (cur upd : Option DataFile) (fs : List String) :
    Option DataFile × List String :=
  match cur with
  | some old =>
      if old.ownedTemp ∧ old.path ≠ "" ∧
         (match upd with | none => true | some d => decide (old.path ≠ d.path)) = true then
        (upd, fs.erase old.path)
      else (upd, fs)
  | none => (upd, fs)

/-- Source `Session.Close` (part_003 lines 85-87): replace with nil. -/
def sessionClose (cur : Option DataFile) (fs : List String) :
    Option DataFile × List String :=
  sessionReplace cur none fs

/-! Specification-side definitions the theorems compare the embedded code
against.  They are written from the claims' wording, not from the source. -/

/-- Whether a physical line decodes to a usable (non-empty) CSV record —
the condition under which `buildIndex` and `extractSeries` advance their
row counters. -/
def lineDecodes (l : String) : Bool :=
  match readCSVLine l with
  | some r => !(r.length = 0)
  | none => false

/-- Length of the leading all-`true` run. -/
def leadTrueRun : List Bool → Nat
  | [] => 0
  | b :: t => if b then leadTrueRun t + 1 else 0

/-- Length of the longest contiguous all-`true` run: the maximum, over all
suffixes, of the leading run — i.e. the longest maximal contiguous
substring of `true`s. -/
def longestRun : List Bool → Nat
  | [] => 0
  | b :: t => max (leadTrueRun (b :: t)) (longestRun t)

/-- Length of the trailing all-`true` run. -/
def tailTrueRun (bs : List Bool) : Nat := leadTrueRun bs.reverse

/-- Whether a cell value satisfies the sustained-threshold comparison: it
parses, is finite, and compares against the threshold in the template's
direction. -/
def satCell (compareLess : Bool) (threshold : ℚ) (cell : String) : Bool :=
  match parseFloatValue cell with
  | some v =>
      NumberFinite v &&
        (if compareLess then v.lt (.finite threshold) else v.gt (.finite threshold))
  | none => false

/-! ## Claim C7 — session file replacement and temp-file deletion -/

/-- C7: when a session's data file is replaced (close being replace with
nil), the session holds the new file afterwards; the prior backing file is
deleted exactly when the prior file was `ownedTemp` and its path differs
from the new file's path (or the new file is nil); in every other case the
filesystem is unchanged.  (A backing file on disk presupposes a non-empty
path, which is the stated hypothesis.) -/
theorem sessionReplace_spec (old : DataFile) (upd : Option DataFile) (fs : List String)
    (hpath : old.path ≠ "") :
    (sessionReplace (some old) upd fs).1 = upd ∧
    ((old.ownedTemp = true ∧ ∀ d, upd = some d → d.path ≠ old.path) →
      (sessionReplace (some old) upd fs).2 = fs.erase old.path) ∧
    ((old.ownedTemp = false ∨ ∃ d, upd = some d ∧ d.path = old.path) →
      (sessionReplace (some old) upd fs).2 = fs) ∧
    sessionClose (some old) fs = sessionReplace (some old) none fs := by
  refine ⟨?_, ?_, ?_, rfl⟩
  · simp only [sessionReplace]
    split <;> rfl
  · rintro ⟨hown, hdiff⟩
    unfold sessionReplace
    cases upd with
    | none => simp [hown, hpath]
    | some d =>
        have hne : old.path ≠ d.path := fun h => hdiff d rfl (h ▸ rfl)
        simp [hown, hpath, hne]
  · rintro (hown | ⟨d, rfl, heq⟩)
    · unfold sessionReplace
      simp [hown]
    · unfold sessionReplace
      simp [heq.symm]

/-- Witness for `sessionReplace_spec` at concrete files: an owned temp file
`/tmp/a` replaced by a file at `/tmp/b` is removed from the filesystem. -/
theorem sessionReplace_spec_witness :
    let old : DataFile :=
      { path := "/tmp/a", label := "a", ownedTemp := true, columns := [],
        index := [], rows := 0, startTime := goZeroTime, endTime := goZeroTime,
        dataStartOffset := 0, timeLayout := "" }
    let nw : DataFile :=
      { path := "/tmp/b", label := "b", ownedTemp := true, columns := [],
        index := [], rows := 0, startTime := goZeroTime, endTime := goZeroTime,
        dataStartOffset := 0, timeLayout := "" }
    (sessionReplace (some old) (some nw) ["/tmp/a", "/tmp/b"]).1 = some nw ∧
    (sessionReplace (some old) (some nw) ["/tmp/a", "/tmp/b"]).2 = ["/tmp/b"] := by
  intro old nw
  have h := sessionReplace_spec old (some nw) ["/tmp/a", "/tmp/b"] (by decide)
  refine ⟨h.1, ?_⟩
  have h2 := h.2.1 ⟨rfl, by intro d hd; cases hd; decide⟩
  rw [h2]
  decide

/-! ## Claim C8 — PDH column parser fallback (corrected) -/

/-- C8 counterexample: for the raw header `"foo"` (no `\\` prefix) the
fallback's `attributeLabel` is the raw header itself, not
`"<object>: <counter>"` = `"Other: foo"` as the claim states. -/
theorem parsePDHColumnBackend_fallback_cex :
    parsePDHColumnBackend "foo" 1 =
      { idx := 1, raw := "foo", object := "Other", instanceName := "Global",
        counter := "foo", attributeLabel := "foo" } ∧
    (parsePDHColumnBackend "foo" 1).attributeLabel ≠
      (parsePDHColumnBackend "foo" 1).object ++ ": " ++
        (parsePDHColumnBackend "foo" 1).counter := by
  exact ⟨by decide, by decide⟩

/-- C8 amended: a raw header without the `\\` prefix or with fewer than
five backslash-delimited segments parses to object `"Other"`, instance
`"Global"`, counter equal to the raw header, and an `attributeLabel` equal
to the raw header (not `"<object>: <counter>"`). -/
theorem parsePDHColumnBackend_fallback (raw : String) (idx : Int)
    (h : goStartsWith raw "\\\\" = false ∨ (goSplit raw "\\").length < 5) :
    parsePDHColumnBackend raw idx =
      { idx := idx, raw := raw, object := "Other", instanceName := "Global",
        counter := raw, attributeLabel := raw } := by
  unfold parsePDHColumnBackend
  rcases h with h | h
  · simp [h]
  · by_cases hs : goStartsWith raw "\\\\"
    · simp [hs, h]
    · simp [hs]

/-- Witness for `parsePDHColumnBackend_fallback` at the header `"x"`. -/
theorem parsePDHColumnBackend_fallback_witness :
    parsePDHColumnBackend "x" 0 =
      { idx := 0, raw := "x", object := "Other", instanceName := "Global",
        counter := "x", attributeLabel := "x" } :=
  parsePDHColumnBackend_fallback "x" 0 (Or.inl (by decide))

/-! ## Claim C10 — finding sort comparator of runDiagnostics -/

/-- C10: the `runDiagnostics` comparator ranks severities
critical=0, high=1, medium=2, low=3 on the lower-cased string, ties on
equal severity strings break by title, any severity outside the four
values gets rank 0, and a rank-0 unknown severity therefore sorts
together with critical findings (neither precedes the other) and before
any finding of positive rank. -/
theorem findingLess_spec :
    (∀ a b : DiagnosticFinding, a.severity = b.severity →
      findingLess a b = goStringLt a.title.toList b.title.toList) ∧
    (∀ a b : DiagnosticFinding, a.severity ≠ b.severity →
      (findingLess a b = true ↔
        sevRank (goToLower a.severity) < sevRank (goToLower b.severity))) ∧
    (sevRank "critical" = 0 ∧ sevRank "high" = 1 ∧ sevRank "medium" = 2 ∧
      sevRank "low" = 3) ∧
    (∀ s, s ≠ "critical" → s ≠ "high" → s ≠ "medium" → s ≠ "low" → sevRank s = 0) ∧
    (∀ f c : DiagnosticFinding, sevRank (goToLower f.severity) = 0 →
      f.severity ≠ c.severity → sevRank (goToLower c.severity) = 0 →
      findingLess f c = false ∧ findingLess c f = false) ∧
    (∀ f g : DiagnosticFinding, sevRank (goToLower f.severity) = 0 →
      0 < sevRank (goToLower g.severity) → f.severity ≠ g.severity →
      findingLess f g = true) := by
  refine ⟨?_, ?_, ⟨rfl, rfl, rfl, rfl⟩, ?_, ?_, ?_⟩
  · intro a b h
    simp [findingLess, h]
  · intro a b h
    simp [findingLess, h]
  · intro s h1 h2 h3 h4
    simp [sevRank, h1, h2, h3, h4]
  · intro f c h0 hne hc
    constructor
    · simp [findingLess, hne, h0, hc]
    · simp [findingLess, Ne.symm hne, h0, hc]
  · intro f g h0 hg hne
    simp [findingLess, hne, h0, hg]

/-- Witness for `findingLess_spec` at concrete findings: equal severities
tie-break by title; an unknown severity ties with critical and precedes
high. -/
theorem findingLess_spec_witness :
    let mk : String → String → DiagnosticFinding := fun sev title =>
      { templateId := "", templateName := "", title := title, severity := sev,
        reportKey := "", attributeLabel := "", instances := [], startMs := 0,
        endMs := 0, summary := "" }
    findingLess (mk "high" "a") (mk "high" "b") = true ∧
    findingLess (mk "weird" "x") (mk "critical" "y") = false ∧
    findingLess (mk "weird" "x") (mk "high" "y") = true := by
  intro mk
  refine ⟨?_, ?_, ?_⟩
  · rw [findingLess_spec.1 (mk "high" "a") (mk "high" "b") rfl]
    decide
  · exact (findingLess_spec.2.2.2.2.1 (mk "weird" "x") (mk "critical" "y")
      (by decide) (by decide) (by decide)).1
  · exact findingLess_spec.2.2.2.2.2 (mk "weird" "x") (mk "high" "y")
      (by decide) (by decide) (by decide)

/-! ## Claim C6 — builtin immutability of the template store -/

/-- The ID an upsert targets: the normalized template's ID, derived from
the name when empty — the same let-chain `upsert` begins with. -/
def upsertTargetID (t : DiagnosticTemplate) (nowNanos : Nat) : String :=
  let t := normalizeTemplate t
  let t := if t.id = "" then { t with id := templateIDFromName t.name nowNanos } else t
  t.id

/-- An erase for an absent key leaves the association list unchanged. -/
theorem assocErase_of_lookup_none (m : List (String × DiagnosticTemplate)) (k : String)
    (h : assocLookup m k = none) : assocErase m k = m := by
  induction m with
  | nil => rfl
  | cons kv rest ih =>
      rw [assocLookup] at h
      by_cases hk : kv.1 = k
      · rw [if_pos hk] at h
        cases h
      · rw [if_neg hk] at h
        have h2 := ih h
        have hd : decide (kv.1 ≠ k) = true := by simpa using hk
        simp only [assocErase] at h2 ⊢
        rw [List.filter_cons, if_pos hd, h2]

/-- C6: an upsert or delete targeting a builtin template ID errors and
leaves the whole store (custom map and persisted document) unchanged; a
delete of a non-builtin ID absent from the custom map succeeds without
error and leaves the custom map unchanged. -/
theorem templateStore_builtin_immutable :
    (∀ (st : TemplateStoreState) (t : DiagnosticTemplate) (now : Nat),
      (assocLookup st.builtins (upsertTargetID t now)).isSome →
      (DiagnosticTemplateStore.upsert st t now).1 = st ∧
      ∃ e, (DiagnosticTemplateStore.upsert st t now).2 = .error e) ∧
    (∀ (st : TemplateStoreState) (id : String),
      (assocLookup st.builtins (goTrimSpace id)).isSome →
      (DiagnosticTemplateStore.delete st id).1 = st ∧
      (DiagnosticTemplateStore.delete st id).2.isSome) ∧
    (∀ (st : TemplateStoreState) (id : String),
      goTrimSpace id ≠ "" →
      assocLookup st.builtins (goTrimSpace id) = none →
      assocLookup st.custom (goTrimSpace id) = none →
      (DiagnosticTemplateStore.delete st id).2 = none ∧
      (DiagnosticTemplateStore.delete st id).1.custom = st.custom) := by
  refine ⟨?_, ?_, ?_⟩
  · intro st t now h
    unfold upsertTargetID at h
    dsimp only at h
    unfold DiagnosticTemplateStore.upsert
    dsimp only
    split_ifs <;> first
      | exact ⟨rfl, _, rfl⟩
      | simp_all
  · intro st id h
    unfold DiagnosticTemplateStore.delete
    dsimp only
    split_ifs <;> exact ⟨rfl, rfl⟩
  · intro st id h1 h2 h3
    unfold DiagnosticTemplateStore.delete
    dsimp only
    split_ifs with g1 g2
    · exact absurd g1 h1
    · rw [h2] at g2
      simp at g2
    · exact ⟨rfl, by simpa using assocErase_of_lookup_none st.custom (goTrimSpace id) h3⟩

/-- Witness for `templateStore_builtin_immutable`: a store holding one
builtin `b1` rejects upsert/delete of `b1` unchanged, and deleting the
absent `zz` succeeds. -/
theorem templateStore_builtin_immutable_witness :
    let det : DetectorTemplate :=
      { dtype := "high_ready", threshold := 0, comparison := "",
        minConsecutive := 6, minSwitches := 0, minGap := 0, lowThreshold := 0,
        highThreshold := 0, includeAttributeEquals := [], includeObjectEquals := [],
        excludeInstanceContains := [], excludeInstanceRegex := [],
        filter := { logic := "and", conditions := [] } }
    let bt : DiagnosticTemplate :=
      { id := "b1", name := "B", description := "", enabled := true,
        severity := "high", detector := det }
    let st : TemplateStoreState :=
      { path := "/p", builtins := [("b1", bt)], custom := [], persisted := [] }
    (DiagnosticTemplateStore.upsert st bt 0).1 = st ∧
    (DiagnosticTemplateStore.delete st "b1").2.isSome ∧
    (DiagnosticTemplateStore.delete st "zz").2 = none := by
  intro det bt st
  refine ⟨?_, ?_, ?_⟩
  · exact (templateStore_builtin_immutable.1 st bt 0 (by decide)).1
  · exact (templateStore_builtin_immutable.2.1 st "b1" (by decide)).2
  · exact (templateStore_builtin_immutable.2.2 st "zz" (by decide) (by decide)
      (by decide)).1

/-! ## buildIndex scan lemmas (shared by the indexer claims) -/

/-- The timestamp a data line contributes: its decoded record's first
field, when the line decodes and the timestamp parses. -/
def lineTime (l : String) : Option GoTime :=
  match readCSVLine l with
  | some r => if r.length = 0 then none else (parseTimeValue (r.headD "")).map (·.1)
  | none => none

theorem buildStep_offset (s : BuildState) (l : String) :
    (buildStep s l).offset = s.offset + l.length := by
  unfold buildStep
  cases h : readCSVLine l with
  | none => rfl
  | some r =>
      by_cases hr : r.length = 0
      · simp [hr]
      · simp [hr]

theorem buildStep_row (s : BuildState) (l : String) :
    (buildStep s l).row = s.row + (if lineDecodes l then 1 else 0) := by
  unfold buildStep lineDecodes
  cases h : readCSVLine l with
  | none => rfl
  | some r =>
      by_cases hr : r.length = 0
      · simp [hr]
      · simp [hr]

theorem buildStep_endTime (s : BuildState) (l : String) :
    (buildStep s l).df.endTime = (lineTime l).getD s.df.endTime := by
  unfold buildStep lineTime
  cases h : readCSVLine l with
  | none => rfl
  | some r =>
      by_cases hr : r.length = 0
      · simp only [if_pos hr]
        rfl
      · cases ht : parseTimeValue (r.headD "") with
        | none =>
            simp only [if_neg hr, ht]
            rfl
        | some p =>
            obtain ⟨ts0, ly⟩ := p
            simp only [if_neg hr, ht]
            split_ifs <;> rfl

theorem buildStep_keeps (s : BuildState) (l : String) (hrow : 1 ≤ s.row)
    (hidx : s.df.index ≠ []) :
    (buildStep s l).df.startTime = s.df.startTime ∧
    (buildStep s l).df.index.head? = s.df.index.head? ∧
    (buildStep s l).df.index ≠ [] ∧ 1 ≤ (buildStep s l).row := by
  unfold buildStep
  cases h : readCSVLine l with
  | none => exact ⟨rfl, rfl, hidx, hrow⟩
  | some r =>
      by_cases hr : r.length = 0
      · simp only [if_pos hr]
        exact ⟨trivial, trivial, hidx, hrow⟩
      · rcases List.exists_cons_of_ne_nil hidx with ⟨e, tl, he⟩
        cases ht : parseTimeValue (r.headD "") with
        | none =>
            simp only [if_neg hr, ht]
            exact ⟨trivial, trivial, hidx, by omega⟩
        | some p =>
            obtain ⟨ts0, ly⟩ := p
            simp only [if_neg hr, ht]
            refine ⟨?_, ?_, ?_, by omega⟩ <;>
              (simp only [he]
               split_ifs <;> first | rfl | omega | simp_all)

theorem buildFold_offset (lines : List String) (s : BuildState) :
    (lines.foldl buildStep s).offset = s.offset + (lines.map String.length).sum := by
  induction lines generalizing s with
  | nil => simp
  | cons l rest ih =>
      simp only [List.foldl_cons, List.map_cons, List.sum_cons, ih, buildStep_offset]
      omega

theorem buildFold_row (lines : List String) (s : BuildState) :
    (lines.foldl buildStep s).row = s.row + lines.countP lineDecodes := by
  induction lines generalizing s with
  | nil => simp
  | cons l rest ih =>
      simp only [List.foldl_cons, List.countP_cons, ih, buildStep_row]
      by_cases hd : lineDecodes l
      · simp [hd]
        omega
      · simp [hd]

theorem buildFold_endTime (lines : List String) (s : BuildState) :
    (lines.foldl buildStep s).df.endTime =
      (lines.filterMap lineTime).getLastD s.df.endTime := by
  induction lines generalizing s with
  | nil => rfl
  | cons l rest ih =>
      simp only [List.foldl_cons, List.filterMap_cons]
      cases ht : lineTime l with
      | none =>
          rw [ih]
          congr 1
          rw [buildStep_endTime, ht, Option.getD_none]
      | some ts =>
          rw [ih, List.getLastD_cons]
          congr 1
          rw [buildStep_endTime, ht, Option.getD_some]

theorem buildFold_keeps (lines : List String) (s : BuildState) (hrow : 1 ≤ s.row)
    (hidx : s.df.index ≠ []) :
    (lines.foldl buildStep s).df.startTime = s.df.startTime ∧
    (lines.foldl buildStep s).df.index.head? = s.df.index.head? := by
  induction lines generalizing s with
  | nil => exact ⟨rfl, rfl⟩
  | cons l rest ih =>
      obtain ⟨h1, h2, h3, h4⟩ := buildStep_keeps s l hrow hidx
      obtain ⟨g1, g2⟩ := ih (buildStep s l) h4 h3
      exact ⟨g1.trans h1, g2.trans h2⟩

theorem buildStep_df_nodecode (s : BuildState) (l : String)
    (hd : lineDecodes l = false) : (buildStep s l).df = s.df := by
  unfold lineDecodes at hd
  unfold buildStep
  cases h : readCSVLine l with
  | none => rfl
  | some r =>
      rw [h] at hd
      have hr : r.length = 0 := by simpa using hd
      simp [hr]

theorem buildFold_nodecode (lines : List String) (s : BuildState)
    (hd : ∀ l ∈ lines, lineDecodes l = false) :
    (lines.foldl buildStep s).df = s.df ∧ (lines.foldl buildStep s).row = s.row := by
  induction lines generalizing s with
  | nil => exact ⟨rfl, rfl⟩
  | cons l rest ih =>
      have h1 : lineDecodes l = false := hd l (by simp)
      have h2 := ih (buildStep s l) (fun x hx => hd x (by simp [hx]))
      simp only [List.foldl_cons]
      refine ⟨h2.1.trans (buildStep_df_nodecode s l h1), ?_⟩
      rw [h2.2, buildStep_row, h1]
      simp

/-- The `buildStep` effect on the index: unchanged, or (for a decoded line)
one entry appended carrying the pre-step row counter plus one and the
pre-step offset. -/
theorem buildStep_index (s : BuildState) (l : String) :
    (buildStep s l).df.index = s.df.index ∨
    (lineDecodes l = true ∧ ∃ ts,
      (buildStep s l).df.index = s.df.index ++ [⟨s.row + 1, s.offset, ts⟩]) := by
  unfold buildStep
  cases h : readCSVLine l with
  | none => exact Or.inl rfl
  | some r =>
      by_cases hr : r.length = 0
      · simp only [if_pos hr]
        exact Or.inl trivial
      · have hd : lineDecodes l = true := by
          unfold lineDecodes
          rw [h]
          simpa using hr
        cases ht : parseTimeValue (r.headD "") with
        | none =>
            simp only [if_neg hr, ht]
            exact Or.inl trivial
        | some p =>
            obtain ⟨ts0, ly⟩ := p
            simp only [if_neg hr, ht]
            by_cases hc : s.row + 1 = 1 ∨ (s.row + 1) % indexStride = 0
            · refine Or.inr ⟨hd, ts0, ?_⟩
              simp only [if_pos hc]
              split_ifs <;> rfl
            · refine Or.inl ?_
              simp only [if_neg hc]
              split_ifs <;> rfl

/-- Scan invariant of `buildIndex` relative to the processed data lines:
the offset is the header length plus all processed raw line lengths, the
row counter counts the decoded lines, and every index entry points at a
decoded line with the row number among decoded lines and the byte offset
of that line's start. -/
def BuildInv (header : String) (processed : List String) (s : BuildState) : Prop :=
  s.offset = header.length + (processed.map String.length).sum ∧
  s.row = processed.countP lineDecodes ∧
  ∀ e ∈ s.df.index, ∃ k, k < processed.length ∧
    lineDecodes (processed.getD k "") = true ∧
    e.row = (processed.take k).countP lineDecodes + 1 ∧
    e.offset = header.length + ((processed.take k).map String.length).sum

theorem buildInv_step (header : String) (p : List String) (s : BuildState)
    (l : String) (h : BuildInv header p s) : BuildInv header (p ++ [l]) (buildStep s l) := by
  obtain ⟨ho, hr, hi⟩ := h
  have hold : ∀ e ∈ s.df.index, ∃ k, k < (p ++ [l]).length ∧
      lineDecodes ((p ++ [l]).getD k "") = true ∧
      e.row = ((p ++ [l]).take k).countP lineDecodes + 1 ∧
      e.offset = header.length + (((p ++ [l]).take k).map String.length).sum := by
    intro e he
    obtain ⟨k, hk, h1, h2, h3⟩ := hi e he
    refine ⟨k, by simp; omega, ?_, ?_, ?_⟩
    · rwa [List.getD_append _ _ _ _ hk]
    · rwa [List.take_append_of_le_length (le_of_lt hk)]
    · rwa [List.take_append_of_le_length (le_of_lt hk)]
  refine ⟨?_, ?_, ?_⟩
  · rw [buildStep_offset, ho]
    simp only [List.map_append, List.sum_append, List.map_cons, List.sum_cons,
      List.map_nil, List.sum_nil]
    omega
  · rw [buildStep_row, hr, List.countP_append]
    simp [List.countP_cons]
  · rcases buildStep_index s l with hsame | ⟨hd, ts, happ⟩
    · rw [hsame]
      exact hold
    · rw [happ]
      intro e he
      rcases List.mem_append.mp he with he | he
      · exact hold e he
      · have he2 : e = ⟨s.row + 1, s.offset, ts⟩ := by simpa using he
        subst he2
        refine ⟨p.length, by simp, ?_, ?_, ?_⟩
        · have : (p ++ [l]).getD p.length "" = l := by
            simp [List.getD, List.getElem?_concat_length]
          rw [this, hd]
        · simp only [List.take_left]
          rw [hr]
        · simp only [List.take_left]
          rw [ho]

theorem buildInv_fold (header : String) (rest p : List String) (s : BuildState)
    (h : BuildInv header p s) : BuildInv header (p ++ rest) (rest.foldl buildStep s) := by
  induction rest generalizing p s with
  | nil => simpa using h
  | cons l rs ih =>
      have h1 := buildInv_step header p s l h
      have h2 := ih (p ++ [l]) (buildStep s l) h1
      simpa using h2

/-! ## Claim C1 — buildIndex offset and row accounting (corrected) -/

/-- The C1 counterexample file: header, one blank (decode-failing) line,
one good data line. -/
def cexC1file : List String := ["Time,a\n", "\n", "2026-02-09 15:30:00,5\n"]

/-- C1 counterexample: a physical data line whose CSV decode fails (a
blank line) advances the offset but does not increment the row counter,
so `rows = 1` although there are 2 physical data lines, and the single
indexed data row (physical position 2) carries row number 1.  Under the
claim the counter would be incremented for every physical line, giving
`rows = 2` and row number 2. -/
theorem buildIndex_row_physical_cex :
    ((buildIndex "f.csv" cexC1file).map
        (fun df => (df.rows, df.index.map (·.row)))).toOption = some (1, [1]) ∧
    cexC1file.tail.length = 2 ∧
    lineDecodes (cexC1file.getD 1 "") = false ∧
    (1 : Nat) ≠ 2 := by
  refine ⟨by decide, rfl, by decide, by decide⟩

/-- C1 amended: for every physical data line — including decode and
timestamp failures — the running byte offset advances by the raw line
length, but the row counter is incremented only for lines whose CSV
decode succeeds (timestamp failures still increment it).  Hence `rows`
counts the decoded lines, and every index entry points at a decoded line
whose entry row is its 1-based position among decoded lines and whose
entry offset is the header length plus the raw lengths of all physical
lines before it. -/
theorem buildIndex_offset_row_accounting (path header : String)
    (dataLines : List String) (df : DataFile)
    (h : buildIndex path (header :: dataLines) = .ok df) :
    df.rows = dataLines.countP lineDecodes ∧
    ∀ e ∈ df.index, ∃ k, k < dataLines.length ∧
      lineDecodes (dataLines.getD k "") = true ∧
      e.row = (dataLines.take k).countP lineDecodes + 1 ∧
      e.offset = header.length + ((dataLines.take k).map String.length).sum := by
  unfold buildIndex at h
  dsimp only at h
  cases hh : readCSVLine header with
  | none => rw [hh] at h; cases h
  | some h0 =>
      rw [hh] at h
      dsimp only at h
      by_cases hl : h0.length = 0
      · rw [if_pos hl] at h
        cases h
      · rw [if_neg hl] at h
        injection h with hdf
        have hinv := buildInv_fold header dataLines []
          { offset := header.length, row := 0,
            df := { path := path, label := path, ownedTemp := false,
                    columns := "Time" :: h0.tail, index := [], rows := 0,
                    startTime := goZeroTime, endTime := goZeroTime,
                    dataStartOffset := header.length, timeLayout := "" } }
          ⟨by simp, rfl, by simp⟩
        rw [List.nil_append] at hinv
        obtain ⟨-, hrow, hidx⟩ := hinv
        constructor
        · rw [← hdf]
          split_ifs <;> exact hrow
        · intro e he
          refine hidx e ?_
          rw [← hdf] at he
          revert he
          split_ifs <;> exact id

/-- Concrete two-line file and its `buildIndex` result, used by the
indexer witnesses. -/
def c1wFile : List String := ["Time,a\n", "2026-02-09 15:30:00,1\n"]

/-- The `DataFile` that `buildIndex` produces for `c1wFile`. -/
def c1wDF : DataFile :=
  { path := "w.csv", label := "w.csv", ownedTemp := false,
    columns := ["Time", "a"],
    index := [⟨1, 7, ⟨1770651000000⟩⟩], rows := 1,
    startTime := ⟨1770651000000⟩, endTime := ⟨1770651000000⟩,
    dataStartOffset := 7, timeLayout := "2006-01-02 15:04:05" }

/-- Witness for `buildIndex_offset_row_accounting` on a concrete two-line
file. -/
theorem buildIndex_offset_row_accounting_witness :
    c1wDF.rows = (["2026-02-09 15:30:00,1\n"] : List String).countP lineDecodes :=
  (buildIndex_offset_row_accounting "w.csv" "Time,a\n"
    ["2026-02-09 15:30:00,1\n"] c1wDF rfl).1

/-! ## Claim C3 — buildIndex start/end times and first index entry (corrected) -/

/-- Effect of `buildStep` on the very first decoded data line when its
timestamp parses: the row counter becomes 1, `startTime` is set, and the
index gains its first entry at the current offset. -/
theorem buildStep_first (s : BuildState) (l : String) (r : List String)
    (ts : GoTime) (ly : String) (hs : s.row = 0) (hidx : s.df.index = [])
    (hlay : s.df.timeLayout = "") (hcsv : readCSVLine l = some r)
    (hr : ¬r.length = 0) (ht : parseTimeValue (r.headD "") = some (ts, ly)) :
    (buildStep s l).row = 1 ∧ (buildStep s l).df.startTime = ts ∧
    (buildStep s l).df.index = [⟨1, s.offset, ts⟩] := by
  unfold buildStep
  rw [hcsv]
  simp only [if_neg hr, ht]
  refine ⟨by simp [hs], ?_, ?_⟩ <;> simp [hs, hidx, hlay]

/-- C3 counterexample: in a file whose first data row's timestamp does not
parse but whose second does, some row's timestamp parses successfully,
yet the index is empty (so `index[0].row == 1` fails) and `startTime`
stays the zero time instead of the first successfully parsed timestamp. -/
theorem buildIndex_first_ts_cex :
    ((buildIndex "f.csv" ["Time,a\n", "notatime,1\n", "2026-02-09 15:30:00,2\n"]).map
        (fun df => (df.index, df.startTime, df.endTime))).toOption =
      some ([], goZeroTime, ⟨1770651000000⟩) ∧
    lineTime "2026-02-09 15:30:00,2\n" = some ⟨1770651000000⟩ ∧
    goZeroTime ≠ (⟨1770651000000⟩ : GoTime) := by
  refine ⟨by decide, by decide, by decide⟩

/-- C3 amended: `endTime` always equals the last successfully parsed row
timestamp (zero time when none parsed); and **provided the first decoded
data row's timestamp parses**, `startTime` equals that timestamp and the
first index entry is `{row 1, offset = header length + bytes of the
preceding lines, that timestamp}`.  When the first decoded row's
timestamp fails to parse, `startTime` and `index[0]` are not recovered
from later rows (the code sets them only at `row == 1`). -/
theorem buildIndex_start_end_times (path header : String)
    (dataLines : List String) (df : DataFile)
    (h : buildIndex path (header :: dataLines) = .ok df) :
    df.endTime = (dataLines.filterMap lineTime).getLastD goZeroTime ∧
    ∀ k ts, k < dataLines.length →
      (dataLines.take k).countP lineDecodes = 0 →
      lineTime (dataLines.getD k "") = some ts →
      df.startTime = ts ∧
      df.index.head? =
        some ⟨1, header.length + ((dataLines.take k).map String.length).sum, ts⟩ := by
  unfold buildIndex at h
  dsimp only at h
  cases hh : readCSVLine header with
  | none => rw [hh] at h; cases h
  | some h0 =>
      rw [hh] at h
      dsimp only at h
      by_cases hl : h0.length = 0
      · rw [if_pos hl] at h
        cases h
      · rw [if_neg hl] at h
        injection h with hdf
        set s0 : BuildState :=
          { offset := header.length, row := 0,
            df := { path := path, label := path, ownedTemp := false,
                    columns := "Time" :: h0.tail, index := [], rows := 0,
                    startTime := goZeroTime, endTime := goZeroTime,
                    dataStartOffset := header.length, timeLayout := "" } } with hs0
        constructor
        · have het : df.endTime = (dataLines.foldl buildStep s0).df.endTime := by
            rw [← hdf]
            split_ifs <;> rfl
          rw [het, buildFold_endTime]
        · intro k ts hk h0p hts
          -- unpack the successful decode and parse of the k-th line
          unfold lineTime at hts
          cases hcsv : readCSVLine (dataLines.getD k "") with
          | none => rw [hcsv] at hts; cases hts
          | some r =>
              rw [hcsv] at hts
              dsimp only at hts
              by_cases hr : r.length = 0
              · rw [if_pos hr] at hts
                cases hts
              · rw [if_neg hr] at hts
                obtain ⟨p, hp, hp1⟩ := Option.map_eq_some'.mp hts
                obtain ⟨ts0, ly⟩ := p
                cases hp1
                -- split the data lines at position k
                have hsplit : dataLines =
                    dataLines.take k ++ dataLines.getD k "" :: dataLines.drop (k + 1) := by
                  conv_lhs => rw [← List.take_append_drop k dataLines]
                  rw [List.drop_eq_getElem_cons hk, List.getD_eq_getElem _ _ hk]
                have hnodec : ∀ x ∈ dataLines.take k, lineDecodes x = false := by
                  intro x hx
                  have := List.countP_eq_zero.mp h0p x hx
                  simpa using this
                -- the state after the non-decoding prefix
                obtain ⟨hdf1, hrow1⟩ := buildFold_nodecode (dataLines.take k) s0 hnodec
                have hoff1 : ((dataLines.take k).foldl buildStep s0).offset =
                    header.length + ((dataLines.take k).map String.length).sum := by
                  rw [buildFold_offset]
                -- the first decoded, parsing line
                obtain ⟨hrow2, hstart2, hidx2⟩ := buildStep_first
                  ((dataLines.take k).foldl buildStep s0) (dataLines.getD k "") r ts0 ly
                  hrow1 (by rw [hdf1]) (by rw [hdf1]) hcsv hr hp
                -- the rest of the scan keeps startTime and the index head
                obtain ⟨hkeep1, hkeep2⟩ := buildFold_keeps (dataLines.drop (k + 1))
                  (buildStep ((dataLines.take k).foldl buildStep s0) (dataLines.getD k ""))
                  (by omega) (by rw [hidx2]; exact List.cons_ne_nil _ _)
                have hfold : dataLines.foldl buildStep s0 =
                    (dataLines.drop (k + 1)).foldl buildStep
                      (buildStep ((dataLines.take k).foldl buildStep s0)
                        (dataLines.getD k "")) := by
                  conv_lhs => rw [hsplit]
                  rw [List.foldl_append]
                  rfl
                constructor
                · rw [← hdf]
                  have : (dataLines.foldl buildStep s0).df.startTime = ts0 := by
                    rw [hfold, hkeep1, hstart2]
                  split_ifs <;> exact this
                · rw [← hdf]
                  have : (dataLines.foldl buildStep s0).df.index.head? =
                      some ⟨1, header.length + ((dataLines.take k).map String.length).sum,
                        ts0⟩ := by
                    rw [hfold, hkeep2, hidx2, ← hoff1]
                    rfl
                  split_ifs <;> exact this

/-- Witness for `buildIndex_start_end_times` at the concrete file
`c1wFile` and position `k = 0`. -/
theorem buildIndex_start_end_times_witness :
    c1wDF.startTime = (⟨1770651000000⟩ : GoTime) ∧
    c1wDF.index.head? = some ⟨1, 7, ⟨1770651000000⟩⟩ := by
  have h := (buildIndex_start_end_times "w.csv" "Time,a\n"
    ["2026-02-09 15:30:00,1\n"] c1wDF rfl).2 0 ⟨1770651000000⟩
    (by decide) (by decide) (by decide)
  exact ⟨h.1, by rw [h.2]; decide⟩

/-! ## Claim C5 — sustained-threshold processor lemmas -/

theorem thresholdReset_bestLen (s : ThresholdEntityState) (t : GoTime) :
    (thresholdReset s t).bestLen = max s.bestLen s.currLen := by
  unfold thresholdReset
  split_ifs with h <;> simp <;> omega

theorem thresholdReset_bestEnd_open (s : ThresholdEntityState) (t : GoTime)
    (h : s.bestLen < s.currLen) : (thresholdReset s t).bestEnd = t := by
  unfold thresholdReset
  rw [if_pos h]

theorem thresholdCell_currLen (less : Bool) (θ : ℚ) (s : ThresholdEntityState)
    (ts : GoTime) (cell : String) :
    (thresholdCell less θ s ts cell).currLen =
      if satCell less θ cell then s.currLen + 1 else 0 := by
  unfold thresholdCell satCell thresholdReset
  cases hp : parseFloatValue cell with
  | none => split_ifs <;> first | rfl | simp_all
  | some v =>
      cases v <;> simp only [NumberFinite, Bool.not_true, Bool.not_false] <;>
        split_ifs <;> first | rfl | simp_all

theorem thresholdCell_bestLen (less : Bool) (θ : ℚ) (s : ThresholdEntityState)
    (ts : GoTime) (cell : String) :
    (thresholdCell less θ s ts cell).bestLen =
      if satCell less θ cell then s.bestLen else max s.bestLen s.currLen := by
  unfold thresholdCell satCell thresholdReset
  cases hp : parseFloatValue cell with
  | none => split_ifs <;> first | rfl | omega | (simp_all <;> omega)
  | some v =>
      cases v <;> simp only [NumberFinite, Bool.not_true, Bool.not_false] <;>
        split_ifs <;> first | rfl | omega | (simp_all <;> omega)

theorem leadTrueRun_le_longestRun (bs : List Bool) : leadTrueRun bs ≤ longestRun bs := by
  cases bs with
  | nil => exact le_refl 0
  | cons b t => exact le_max_left _ _

/-- Single-column run of the per-cell threshold step. -/
def thresholdCellRun (less : Bool) (θ : ℚ) (s : ThresholdEntityState)
    (rows : List (GoTime × String)) : ThresholdEntityState :=
  rows.foldl (fun s r => thresholdCell less θ s r.1 r.2) s

/-- Key invariant of the streak machine: after any run, the best length
closed at finalize (`max bestLen currLen`) equals the starting best joined
with the longest satisfied run, the open starting streak extended by the
leading satisfied run included. -/
theorem thresholdCellRun_best (less : Bool) (θ : ℚ) (rows : List (GoTime × String))
    (s : ThresholdEntityState) :
    max (thresholdCellRun less θ s rows).bestLen
        (thresholdCellRun less θ s rows).currLen =
      max s.bestLen
        (max (s.currLen + leadTrueRun (rows.map fun r => satCell less θ r.2))
          (longestRun (rows.map fun r => satCell less θ r.2))) := by
  induction rows generalizing s with
  | nil =>
      simp only [thresholdCellRun, List.foldl_nil, List.map_nil]
      simp [leadTrueRun, longestRun]
  | cons r rs ih =>
      have hle := leadTrueRun_le_longestRun (rs.map fun r => satCell less θ r.2)
      have hstep := ih (thresholdCell less θ s r.1 r.2)
      simp only [thresholdCellRun, List.foldl_cons] at hstep ⊢
      rw [hstep, thresholdCell_currLen, thresholdCell_bestLen]
      by_cases hsat : satCell less θ r.2 <;>
        simp only [hsat, if_pos, if_neg, List.map_cons, longestRun, leadTrueRun,
          if_true, if_false, Bool.false_eq_true, not_false_eq_true] <;>
        omega

/-- `thresholdRun` never changes the processor's configuration fields, and
keeps the state vector's length when it matches the index vector's. -/
theorem thresholdRun_fields (p : ThresholdProcessor) (rows : List (GoTime × List String)) :
    (thresholdRun p rows).indexes = p.indexes ∧
    (thresholdRun p rows).labels = p.labels ∧
    (thresholdRun p rows).compareLess = p.compareLess ∧
    (thresholdRun p rows).threshold = p.threshold ∧
    (thresholdRun p rows).minConsecutive = p.minConsecutive ∧
    (thresholdRun p rows).template = p.template ∧
    (p.states.length = p.indexes.length →
      (thresholdRun p rows).states.length = p.indexes.length) := by
  induction rows generalizing p with
  | nil => exact ⟨rfl, rfl, rfl, rfl, rfl, rfl, fun h => h⟩
  | cons r rs ih =>
      have h := ih (thresholdOnRow p r.1 r.2)
      simp only [thresholdRun, List.foldl_cons] at h ⊢
      refine ⟨h.1, h.2.1, h.2.2.1, h.2.2.2.1, h.2.2.2.2.1, h.2.2.2.2.2.1, ?_⟩
      intro hlen
      apply h.2.2.2.2.2.2
      simp only [thresholdOnRow, List.length_map, List.length_zip]
      omega

/-- One `onRow` step, projected to column `i`, is the single-cell step on
that column's cell (for an in-range column index). -/
theorem thresholdOnRow_states_get (p : ThresholdProcessor) (ts : GoTime)
    (record : List String) (i : Nat) (hi : i < p.indexes.length)
    (hlen : p.states.length = p.indexes.length)
    (hin : 0 ≤ p.indexes.getD i 0 ∧ (p.indexes.getD i 0).toNat < record.length) :
    (thresholdOnRow p ts record).states.getD i initThresholdState =
      thresholdCell p.compareLess p.threshold
        (p.states.getD i initThresholdState) ts
        (record.getD (p.indexes.getD i 0).toNat "") := by
  have hz : i < (p.indexes.zip p.states).length := by
    rw [List.length_zip]
    omega
  have hm : i < ((p.indexes.zip p.states).map fun pr =>
      if 0 ≤ pr.1 ∧ pr.1.toNat < record.length then
        thresholdCell p.compareLess p.threshold pr.2 ts (record.getD pr.1.toNat "")
      else pr.2).length := by
    rw [List.length_map]
    exact hz
  simp only [thresholdOnRow]
  rw [List.getD_eq_getElem _ _ hm, List.getElem_map, List.getElem_zip]
  rw [List.getD_eq_getElem _ _ hi] at hin ⊢
  rw [List.getD_eq_getElem _ _ (show i < p.states.length by omega)]
  dsimp only
  rw [if_pos hin]

/-- Projection of a whole `thresholdRun` to one always-in-range column:
the per-cell run over that column's cells. -/
theorem thresholdRun_states_get (p : ThresholdProcessor)
    (rows : List (GoTime × List String)) (i : Nat) (hi : i < p.indexes.length)
    (hlen : p.states.length = p.indexes.length)
    (hin : ∀ r ∈ rows, 0 ≤ p.indexes.getD i 0 ∧
      (p.indexes.getD i 0).toNat < r.2.length) :
    (thresholdRun p rows).states.getD i initThresholdState =
      thresholdCellRun p.compareLess p.threshold
        (p.states.getD i initThresholdState)
        (rows.map fun r => (r.1, r.2.getD (p.indexes.getD i 0).toNat "")) := by
  induction rows generalizing p with
  | nil => rfl
  | cons r rs ih =>
      have hstep := thresholdOnRow_states_get p r.1 r.2 i hi hlen (hin r (by simp))
      have hlen2 : (thresholdOnRow p r.1 r.2).states.length =
          (thresholdOnRow p r.1 r.2).indexes.length := by
        simp only [thresholdOnRow, List.length_map, List.length_zip]
        omega
      have hrec := ih (thresholdOnRow p r.1 r.2) hi hlen2
        (fun x hx => hin x (by simp [hx]))
      simp only [thresholdRun, List.foldl_cons, List.map_cons] at hrec ⊢
      rw [hrec, hstep]
      rfl

/-- C5: for a sustained-threshold processor (states freshly initialized)
fed a synthetic column present on every row: the best streak recorded at
finalize equals the longest maximal contiguous run of rows satisfying the
comparison; the per-column finding of `finalize` exists exactly when that
longest run reaches `minConsecutive`; a streak still open at finalize is
closed against the zero time, so when it wins, the emitted finding has
`End == 0`; and at most 20 findings are emitted. -/
theorem thresholdProcessor_spec (p : ThresholdProcessor)
    (rows : List (GoTime × List String))
    (hlen : p.states.length = p.indexes.length)
    (hinit : p.states = List.replicate p.indexes.length initThresholdState) :
    (thresholdFinalize (thresholdRun p rows)).length ≤ 20 ∧
    ∀ i, i < p.indexes.length →
      (∀ r ∈ rows, 0 ≤ p.indexes.getD i 0 ∧
        (p.indexes.getD i 0).toNat < r.2.length) →
      (thresholdReset ((thresholdRun p rows).states.getD i initThresholdState)
          goZeroTime).bestLen =
        longestRun (rows.map fun r =>
          satCell p.compareLess p.threshold (r.2.getD (p.indexes.getD i 0).toNat "")) ∧
      ((thresholdEmit (thresholdRun p rows)
          (thresholdReset ((thresholdRun p rows).states.getD i initThresholdState)
            goZeroTime)
          ((thresholdRun p rows).labels.getD i "")).isSome ↔
        p.minConsecutive ≤
          longestRun (rows.map fun r =>
            satCell p.compareLess p.threshold
              (r.2.getD (p.indexes.getD i 0).toNat ""))) ∧
      (((thresholdRun p rows).states.getD i initThresholdState).bestLen <
          ((thresholdRun p rows).states.getD i initThresholdState).currLen →
        ∀ f, thresholdEmit (thresholdRun p rows)
            (thresholdReset ((thresholdRun p rows).states.getD i initThresholdState)
              goZeroTime)
            ((thresholdRun p rows).labels.getD i "") = some f →
          f.endMs = 0) := by
  constructor
  · unfold thresholdFinalize
    dsimp only
    rw [List.length_take]
    omega
  · intro i hi hin
    have hget : p.states.getD i initThresholdState = initThresholdState := by
      rw [hinit, List.getD_eq_getElem _ _ (by simpa using hi), List.getElem_replicate]
    have hrun := thresholdRun_states_get p rows i hi hlen hin
    have hbest := thresholdCellRun_best p.compareLess p.threshold
      (rows.map fun r => (r.1, r.2.getD (p.indexes.getD i 0).toNat ""))
      initThresholdState
    have hle := leadTrueRun_le_longestRun
      ((rows.map fun r => (r.1, r.2.getD (p.indexes.getD i 0).toNat "")).map
        fun r => satCell p.compareLess p.threshold r.2)
    have hsats : ((rows.map fun r => (r.1, r.2.getD (p.indexes.getD i 0).toNat "")).map
        fun r => satCell p.compareLess p.threshold r.2) =
        rows.map fun r =>
          satCell p.compareLess p.threshold (r.2.getD (p.indexes.getD i 0).toNat "") := by
      rw [List.map_map]
      rfl
    rw [hsats] at hbest hle
    have hmax : (thresholdReset ((thresholdRun p rows).states.getD i initThresholdState)
        goZeroTime).bestLen =
        longestRun (rows.map fun r =>
          satCell p.compareLess p.threshold (r.2.getD (p.indexes.getD i 0).toNat "")) := by
      rw [thresholdReset_bestLen, hrun, hget, hbest]
      simp only [initThresholdState]
      omega
    refine ⟨hmax, ?_, ?_⟩
    · unfold thresholdEmit
      rw [(thresholdRun_fields p rows).2.2.2.2.1, hmax]
      split_ifs with hc <;>
        simp only [Option.isSome_none, Option.isSome_some, Bool.false_eq_true,
          false_iff, true_iff] <;>
        omega
    · intro hopen f hf
      have hend := thresholdReset_bestEnd_open
        ((thresholdRun p rows).states.getD i initThresholdState) goZeroTime hopen
      clear hbest hle hsats hrun hget hmax hin hinit hlen hopen
      unfold thresholdEmit at hf
      split_ifs at hf <;> simp_all [GoTime.isZero, hend] <;> rw [← hf]

/-- A concrete sustained-threshold detector for the C5 witness. -/
def c5det : DetectorTemplate :=
  { dtype := "threshold_sustained", threshold := 5, comparison := "",
    minConsecutive := 2, minSwitches := 0, minGap := 0, lowThreshold := 0,
    highThreshold := 0, includeAttributeEquals := [], includeObjectEquals := [],
    excludeInstanceContains := [], excludeInstanceRegex := [],
    filter := { logic := "and", conditions := [] } }

/-- A concrete sustained-threshold template for the C5 witness. -/
def c5tmpl : DiagnosticTemplate :=
  { id := "custom.t", name := "T", description := "", enabled := true,
    severity := "high", detector := c5det }

/-- A concrete one-column threshold processor (threshold 5, greater,
minConsecutive 2). -/
def c5proc : ThresholdProcessor :=
  { template := c5tmpl, reportKey := "cpu", attributeLabel := "A: B",
    compareLess := false, indexes := [1], labels := ["inst"], threshold := 5,
    minConsecutive := 2, states := List.replicate 1 initThresholdState }

/-- Three rows whose column-1 values are 6, 7, 2: one satisfied run of
length 2. -/
def c5rows : List (GoTime × List String) :=
  [(⟨1⟩, ["t", "6"]), (⟨2⟩, ["t", "7"]), (⟨3⟩, ["t", "2"])]

/-- Witness for `thresholdProcessor_spec` at a concrete processor and
synthetic column. -/
theorem thresholdProcessor_spec_witness :
    (thresholdFinalize (thresholdRun c5proc c5rows)).length ≤ 20 ∧
    (thresholdReset ((thresholdRun c5proc c5rows).states.getD 0 initThresholdState)
        goZeroTime).bestLen =
      longestRun (c5rows.map fun r =>
        satCell c5proc.compareLess c5proc.threshold
          (r.2.getD (c5proc.indexes.getD 0 0).toNat "")) := by
  have h := thresholdProcessor_spec c5proc c5rows rfl rfl
  exact ⟨h.1, (h.2 0 (by decide) (by decide)).1⟩

/-! ## extractSeries scan lemmas (shared by the extractor claims) -/

/-- Membership in a `listModify` result comes from the original list or
from applying `f` to a member. -/
theorem listModify_mem {l : List SeriesPayload} {i : Nat} {f : SeriesPayload → SeriesPayload}
    {sp : SeriesPayload} (h : sp ∈ listModify l i f) :
    sp ∈ l ∨ ∃ a ∈ l, sp = f a := by
  unfold listModify at h
  cases hg : l.get? i with
  | none => rw [hg] at h; exact Or.inl h
  | some a =>
      rw [hg] at h
      rcases List.mem_or_eq_of_mem_set h with h1 | rfl
      · exact Or.inl h1
      · exact Or.inr ⟨a, List.get?_mem hg, rfl⟩

/-- `writeHomeVals` never changes any payload's value-vector length. -/
theorem writeHomeVals_lengths (cp : Nat) (targets : List Nat) (L : Nat) :
    ∀ (vals : List (Nat × GoFloat)) (series : List SeriesPayload) (vc : List Nat),
      (∀ sp ∈ series, sp.values.length = L) →
      ∀ sp ∈ (writeHomeVals cp targets vals series vc).1, sp.values.length = L := by
  intro vals
  induction vals with
  | nil => intro series vc h sp hsp; exact h sp hsp
  | cons v rest ih =>
      intro series vc h sp hsp
      simp only [writeHomeVals] at hsp
      refine ih _ _ ?_ sp hsp
      intro x hx
      rcases listModify_mem hx with h1 | ⟨a, ha, rfl⟩
      · exact h x h1
      · simp only [List.length_set]
        exact h a ha

/-- `growTargets` keeps every payload's value-vector length at
`currentPos + 1` (new siblings are created with exactly that length). -/
theorem growTargets_lengths (idx : Int) (cp : Nat) (need : Nat) :
    ∀ (fuel : Nat) (series : List SeriesPayload) (targets vc : List Nat),
      (∀ sp ∈ series, sp.values.length = cp + 1) →
      ∀ sp ∈ (growTargets idx cp need fuel series targets vc).1,
        sp.values.length = cp + 1 := by
  intro fuel
  induction fuel with
  | zero => intro series targets vc h sp hsp; exact h sp hsp
  | succ n ih =>
      intro series targets vc h sp hsp
      simp only [growTargets] at hsp
      by_cases hc : targets.length < need
      · rw [if_pos hc] at hsp
        refine ih _ _ _ ?_ sp hsp
        intro x hx
        rcases List.mem_append.mp hx with h1 | h1
        · exact h x h1
        · rw [List.mem_singleton] at h1
          rw [h1]
          simp
      · rw [if_neg hc] at hsp
        exact h sp hsp

/-- `emitCol` keeps every payload's value-vector length at `cp + 1`. -/
theorem emitCol_lengths (record : List String) (cp : Nat) (i : Nat) (idx : Int)
    (st : List SeriesPayload × List (List Nat) × List Nat)
    (h : ∀ sp ∈ st.1, sp.values.length = cp + 1) :
    ∀ sp ∈ (emitCol record cp i idx st).1, sp.values.length = cp + 1 := by
  obtain ⟨series, seriesMap, vc⟩ := st
  unfold emitCol
  dsimp only at h ⊢
  by_cases hin : 0 ≤ idx ∧ idx.toNat < record.length
  · rw [if_pos hin]
    cases hmh : parseDelimitedFloatValues (record.getD idx.toNat "") "/" with
    | some values =>
        dsimp only
        intro sp hsp
        refine writeHomeVals_lengths cp _ (cp + 1) _ _ _ ?_ sp hsp
        refine growTargets_lengths idx cp _ _ _ _ _ ?_
        intro x hx
        by_cases hrn : ((seriesMap.getD i []).length = 1 ∧ 1 < values.length)
        · rw [if_pos hrn] at hx
          rcases listModify_mem hx with h1 | ⟨a, ha, rfl⟩
          · exact h x h1
          · exact h a ha
        · rw [if_neg hrn] at hx
          exact h x hx
    | none =>
        cases hsv : parseFloatValue (record.getD idx.toNat "") with
        | some v =>
            dsimp only
            intro sp hsp
            rcases listModify_mem hsp with h1 | ⟨a, ha, rfl⟩
            · exact h sp h1
            · simp only [List.length_set]
              exact h a ha
        | none => exact h
  · rw [if_neg hin]
    exact h

/-- Emitting one row preserves value/time alignment: all payloads (old
ones with their fresh 0.0 slot, new mid-scan siblings backfilled with
zeros) hold exactly one value per emitted timestamp. -/
theorem emitRow_lengths (cols : List Int) (ts : GoTime) (record : List String)
    (st : ExtractState) (h : ∀ sp ∈ st.series, sp.values.length = st.times.length) :
    (∀ sp ∈ (emitRow cols ts record st).series,
      sp.values.length = (emitRow cols ts record st).times.length) ∧
    (emitRow cols ts record st).times.length = st.times.length + 1 := by
  unfold emitRow
  dsimp only
  have hcp : (st.times ++ [ts.unixMilli]).length - 1 = st.times.length := by simp
  have hfold : ∀ (l : List (Nat × Int)) (acc : List SeriesPayload × List (List Nat) × List Nat),
      (∀ sp ∈ acc.1, sp.values.length = (st.times ++ [ts.unixMilli]).length - 1 + 1) →
      ∀ sp ∈ (l.foldl (fun acc p =>
          emitCol record ((st.times ++ [ts.unixMilli]).length - 1) p.1 p.2 acc) acc).1,
        sp.values.length = (st.times ++ [ts.unixMilli]).length - 1 + 1 := by
    intro l
    induction l with
    | nil => intro acc hacc; exact hacc
    | cons p rest ih =>
        intro acc hacc
        simp only [List.foldl_cons]
        exact ih _ (emitCol_lengths record _ p.1 p.2 acc hacc)
  constructor
  · intro sp hsp
    have := hfold (cols.enum)
      (st.series.map fun sp => { sp with values := sp.values ++ [.finite 0] },
        st.seriesMap, st.validCounts)
      (by
        intro x hx
        obtain ⟨a, ha, rfl⟩ := List.mem_map.mp hx
        simp [h a ha])
      sp hsp
    rw [this]
    simp
  · simp

/-- The whole scan loop preserves value/time alignment from any state. -/
theorem extractLoop_lengths (cols : List Int) (start stop : GoTime)
    (step startRow : Nat) :
    ∀ (lines : List String) (st : ExtractState),
      (∀ sp ∈ st.series, sp.values.length = st.times.length) →
      ∀ sp ∈ (extractLoop cols start stop step startRow lines st).series,
        sp.values.length =
          (extractLoop cols start stop step startRow lines st).times.length := by
  intro lines
  induction lines with
  | nil => intro st h; exact h
  | cons l rest ih =>
      intro st h
      unfold extractLoop
      cases h1 : readCSVLine l with
      | none => exact ih st h
      | some record =>
          dsimp only
          by_cases h2 : record.length = 0
          · rw [if_pos h2]
            exact ih st h
          · rw [if_neg h2]
            cases h3 : parseTimeValue (record.headD "") with
            | none => exact ih _ h
            | some p =>
                obtain ⟨timestamp, layout⟩ := p
                dsimp only
                by_cases h4 : !start.isZero ∧ timestamp.before start
                · rw [if_pos h4]
                  exact ih _ h
                · rw [if_neg h4]
                  by_cases h5 : !stop.isZero ∧ timestamp.after stop
                  · rw [if_pos h5]
                    exact h
                  · rw [if_neg h5]
                    by_cases h6 : (st.row - startRow) % step = 0
                    · rw [if_pos h6]
                      exact ih _ (emitRow_lengths cols timestamp record st h).1
                    · rw [if_neg h6]
                      exact ih _ h

/-- C9: at every point of the `extractSeries` scan — after any sequence
of processed lines — every series payload holds exactly `times.length`
values (siblings created mid-scan are backfilled, existing series get a
slot per emitted row), and the same holds of the returned response. -/
theorem extractSeries_values_align (df : DataFile) (file : List String)
    (cols : List Int) (start stop : GoTime) (maxPoints : Int) :
    (∀ (pre : List String),
      ∀ sp ∈ (extractLoop cols start stop
          (decimationStep (df.estimateRows start stop) maxPoints)
          (df.findOffset start).2 pre
          (extractInit df cols (df.findOffset start).2)).series,
        sp.values.length =
          (extractLoop cols start stop
            (decimationStep (df.estimateRows start stop) maxPoints)
            (df.findOffset start).2 pre
            (extractInit df cols (df.findOffset start).2)).times.length) ∧
    ∀ sp ∈ (df.extractSeries file cols start stop maxPoints).series,
      sp.values.length = (df.extractSeries file cols start stop maxPoints).times.length := by
  have hinit : ∀ sp ∈ (extractInit df cols (df.findOffset start).2).series,
      sp.values.length = (extractInit df cols (df.findOffset start).2).times.length := by
    intro sp hsp
    obtain ⟨a, ha, rfl⟩ := List.mem_map.mp hsp
    rfl
  constructor
  · intro pre
    exact extractLoop_lengths cols start stop _ _ pre _ hinit
  · intro sp hsp
    unfold DataFile.extractSeries at hsp ⊢
    dsimp only at hsp ⊢
    obtain ⟨pr, hpr, rfl⟩ := List.mem_map.mp hsp
    have hpr2 := (List.mem_filter.mp hpr).1
    have hget := List.mem_enum_iff_getElem?.mp hpr2
    obtain ⟨hlt, heq⟩ := List.getElem?_eq_some.mp hget
    rw [← heq]
    exact extractLoop_lengths cols start stop _ _ _ _ hinit _
      (List.getElem_mem hlt)

/-! ## Claim C2 — decimation budget (corrected) -/

/-- `emitRow` leaves the row counter alone and appends exactly one
timestamp. -/
theorem emitRow_row_times (cols : List Int) (ts : GoTime) (record : List String)
    (st : ExtractState) :
    (emitRow cols ts record st).row = st.row ∧
    (emitRow cols ts record st).times.length = st.times.length + 1 := by
  unfold emitRow
  dsimp only
  exact ⟨rfl, by simp⟩

/-- The scan loop advances the row counter at most once per line whose CSV
decode yields a non-empty record. -/
theorem extractLoop_row_le (cols : List Int) (start stop : GoTime)
    (step startRow : Nat) :
    ∀ (lines : List String) (st : ExtractState),
      (extractLoop cols start stop step startRow lines st).row ≤
        st.row + lines.countP lineDecodes := by
  intro lines
  induction lines with
  | nil => intro st; simp [extractLoop]
  | cons l rest ih =>
      intro st
      unfold extractLoop
      cases hcsv : readCSVLine l with
      | none =>
          have hc : (l :: rest).countP lineDecodes = rest.countP lineDecodes := by
            simp [List.countP_cons, lineDecodes, hcsv]
          rw [hc]
          exact ih st
      | some record =>
          dsimp only
          by_cases h2 : record.length = 0
          · rw [if_pos h2]
            have hc : (l :: rest).countP lineDecodes = rest.countP lineDecodes := by
              simp [List.countP_cons, lineDecodes, hcsv, h2]
            rw [hc]
            exact ih st
          · rw [if_neg h2]
            have hc : (l :: rest).countP lineDecodes = rest.countP lineDecodes + 1 := by
              simp [List.countP_cons, lineDecodes, hcsv, h2]
            rw [hc]
            cases ht : parseTimeValue (record.headD "") with
            | none =>
                have := ih { st with row := st.row + 1 }
                dsimp only at this ⊢
                omega
            | some p =>
                obtain ⟨timestamp, layout⟩ := p
                dsimp only
                by_cases h4 : !start.isZero ∧ timestamp.before start
                · rw [if_pos h4]
                  have := ih { st with row := st.row + 1 }
                  dsimp only at this
                  omega
                · rw [if_neg h4]
                  by_cases h5 : !stop.isZero ∧ timestamp.after stop
                  · rw [if_pos h5]
                    omega
                  · rw [if_neg h5]
                    by_cases h6 : (st.row - startRow) % step = 0
                    · rw [if_pos h6]
                      have her := (emitRow_row_times cols timestamp record st).1
                      have := ih { emitRow cols timestamp record st with
                        row := (emitRow cols timestamp record st).row + 1 }
                      dsimp only at this
                      omega
                    · rw [if_neg h6]
                      have := ih { st with row := st.row + 1 }
                      dsimp only at this
                      omega

/-- Emission invariant of the scan loop: when `k + 1` timestamps have been
emitted, the row counter exceeds `startRow + step * k` — emissions happen
at strictly increasing rows congruent to `startRow` modulo `step`. -/
theorem extractLoop_emit_inv (cols : List Int) (start stop : GoTime)
    (step startRow : Nat) :
    ∀ (lines : List String) (st : ExtractState),
      startRow ≤ st.row →
      (∀ k, st.times.length = k + 1 → startRow + step * k < st.row) →
      startRow ≤ (extractLoop cols start stop step startRow lines st).row ∧
      ∀ k, (extractLoop cols start stop step startRow lines st).times.length = k + 1 →
        startRow + step * k < (extractLoop cols start stop step startRow lines st).row := by
  intro lines
  induction lines with
  | nil => intro st h1 h2; exact ⟨h1, h2⟩
  | cons l rest ih =>
      intro st h1 h2
      unfold extractLoop
      cases hcsv : readCSVLine l with
      | none => exact ih st h1 h2
      | some record =>
          dsimp only
          by_cases hr : record.length = 0
          · rw [if_pos hr]
            exact ih st h1 h2
          · rw [if_neg hr]
            cases ht : parseTimeValue (record.headD "") with
            | none =>
                refine ih _ ?_ ?_ <;> dsimp only
                · omega
                · intro k hk
                  have := h2 k hk
                  omega
            | some p =>
                obtain ⟨timestamp, layout⟩ := p
                dsimp only
                by_cases h4 : !start.isZero ∧ timestamp.before start
                · rw [if_pos h4]
                  refine ih _ ?_ ?_ <;> dsimp only
                  · omega
                  · intro k hk
                    have := h2 k hk
                    omega
                · rw [if_neg h4]
                  by_cases h5 : !stop.isZero ∧ timestamp.after stop
                  · rw [if_pos h5]
                    exact ⟨h1, h2⟩
                  · rw [if_neg h5]
                    by_cases h6 : (st.row - startRow) % step = 0
                    · rw [if_pos h6]
                      obtain ⟨her, htl⟩ := emitRow_row_times cols timestamp record st
                      refine ih _ ?_ ?_ <;> dsimp only
                      · omega
                      · intro k hk
                        rw [htl] at hk
                        rw [her]
                        have hle : startRow + step * k ≤ st.row := by
                          cases k with
                          | zero => simpa using h1
                          | succ j =>
                              have hj := h2 j (by omega)
                              obtain ⟨m, hm⟩ :=
                                Nat.dvd_of_mod_eq_zero h6
                              have hjm : step * j < step * m := by omega
                              have hjm2 : j < m := Nat.lt_of_mul_lt_mul_left hjm
                              have hsm : step * (j + 1) ≤ step * m :=
                                Nat.mul_le_mul_left step hjm2
                              omega
                        omega
                    · rw [if_neg h6]
                      refine ih _ ?_ ?_ <;> dsimp only
                      · omega
                      · intro k hk
                        have := h2 k hk
                        omega

/-- Concrete six-line file (header plus five data rows) exercising the
decimation stride, and the `DataFile` its indexing produces. -/
def c2wFile : List String :=
  ["Time,a\n",
   "2026-02-09 15:30:00,1\n",
   "2026-02-09 15:30:10,2\n",
   "2026-02-09 15:30:20,3\n",
   "2026-02-09 15:30:30,4\n",
   "2026-02-09 15:30:40,5\n"]

/-- The `DataFile` that `buildIndex` produces for `c2wFile`. -/
def c2wDF : DataFile :=
  { path := "w2.csv", label := "w2.csv", ownedTemp := false,
    columns := ["Time", "a"],
    index := [⟨1, 7, ⟨1770651000000⟩⟩], rows := 5,
    startTime := ⟨1770651000000⟩, endTime := ⟨1770651040000⟩,
    dataStartOffset := 7, timeLayout := "2006-01-02 15:04:05" }

/-- C2 counterexample: on a five-data-row file with `maxPoints = 3` the
stride is `max(1, floor(5/3)) = 1` exactly as the claim prescribes, yet
every row is emitted, so `len(times) = 5` exceeds `maxPoints + 1 = 4` —
the floored stride does not enforce the claimed budget. -/
theorem extractSeries_decimation_cex :
    buildIndex "w2.csv" c2wFile = .ok c2wDF ∧
    c2wDF.estimateRows goZeroTime goZeroTime = 5 ∧
    decimationStep (c2wDF.estimateRows goZeroTime goZeroTime) 3 = 1 ∧
    (c2wDF.extractSeries c2wFile [1] goZeroTime goZeroTime 3).times.length = 5 ∧
    ¬((5 : Nat) ≤ 3 + 1) :=
  ⟨rfl, by decide, by decide, by decide, by decide⟩

/-- C2 amended: the stride is always at least 1, and when `maxPoints > 0`
and the estimate exceeds it the stride is `max(1, estimated/maxPoints)`
(floored) as the claim says; but the emission budget actually guaranteed
is `len(times) ≤ ceil(D / step)` where `D` counts the scanned lines whose
CSV decode yields a non-empty record — a bound that can exceed
`maxPoints + 1` because the stride is floored and the window row count is
only an index-based estimate. -/
theorem extractSeries_decimation_bound (df : DataFile) (file : List String)
    (cols : List Int) (start stop : GoTime) (maxPoints : Int) :
    1 ≤ decimationStep (df.estimateRows start stop) maxPoints ∧
    (0 < maxPoints ∧ (maxPoints : Int) < ((df.estimateRows start stop : Nat) : Int) →
      decimationStep (df.estimateRows start stop) maxPoints =
        max (df.estimateRows start stop / maxPoints.toNat) 1) ∧
    (df.extractSeries file cols start stop maxPoints).times.length ≤
      ((seekLines file (df.findOffset start).1).countP lineDecodes +
        decimationStep (df.estimateRows start stop) maxPoints - 1) /
        decimationStep (df.estimateRows start stop) maxPoints := by
  have hstep : 1 ≤ decimationStep (df.estimateRows start stop) maxPoints := by
    unfold decimationStep
    split_ifs
    · exact le_max_right _ _
    · exact le_refl 1
  refine ⟨hstep, ?_, ?_⟩
  · intro h
    unfold decimationStep
    rw [if_pos h, Nat.max_comm]
  · unfold DataFile.extractSeries
    dsimp only
    have hinv := extractLoop_emit_inv cols start stop
      (decimationStep (df.estimateRows start stop) maxPoints) (df.findOffset start).2
      (seekLines file (df.findOffset start).1)
      (extractInit df cols (df.findOffset start).2)
      (by simp [extractInit])
      (by intro k hk; simp [extractInit] at hk)
    have hrow := extractLoop_row_le cols start stop
      (decimationStep (df.estimateRows start stop) maxPoints) (df.findOffset start).2
      (seekLines file (df.findOffset start).1)
      (extractInit df cols (df.findOffset start).2)
    have hr0 : (extractInit df cols (df.findOffset start).2).row =
        (df.findOffset start).2 := rfl
    rw [hr0] at hrow
    cases hL : (extractLoop cols start stop
        (decimationStep (df.estimateRows start stop) maxPoints) (df.findOffset start).2
        (seekLines file (df.findOffset start).1)
        (extractInit df cols (df.findOffset start).2)).times.length with
    | zero => exact Nat.zero_le _
    | succ L =>
        have hlt := hinv.2 L hL
        have hD : decimationStep (df.estimateRows start stop) maxPoints * L <
            (seekLines file (df.findOffset start).1).countP lineDecodes := by omega
        have hdiv : L ≤ ((seekLines file (df.findOffset start).1).countP lineDecodes - 1) /
            decimationStep (df.estimateRows start stop) maxPoints := by
          rw [Nat.le_div_iff_mul_le hstep]
          have := Nat.mul_comm (decimationStep (df.estimateRows start stop) maxPoints) L
          omega
        have hone : 1 ≤ (seekLines file (df.findOffset start).1).countP lineDecodes := by
          omega
        have heq : ((seekLines file (df.findOffset start).1).countP lineDecodes - 1) /
              decimationStep (df.estimateRows start stop) maxPoints + 1 =
            ((seekLines file (df.findOffset start).1).countP lineDecodes - 1 +
              decimationStep (df.estimateRows start stop) maxPoints) /
              decimationStep (df.estimateRows start stop) maxPoints := by
          rw [Nat.add_div_right _ hstep]
        have hsub : (seekLines file (df.findOffset start).1).countP lineDecodes - 1 +
              decimationStep (df.estimateRows start stop) maxPoints =
            (seekLines file (df.findOffset start).1).countP lineDecodes +
              decimationStep (df.estimateRows start stop) maxPoints - 1 := by
          omega
        rw [hsub] at heq
        omega

/-- Witness for `extractSeries_decimation_bound` on the concrete five-row
file with `maxPoints = 3`: the stride premise holds, the stride matches
the floored formula, and five emitted timestamps meet the ceiling bound
`(5 + 1 - 1)/1 = 5`. -/
theorem extractSeries_decimation_bound_witness :
    (0 < (3 : Int) ∧ ((3 : Int) < ((c2wDF.estimateRows goZeroTime goZeroTime : Nat) : Int))) ∧
    decimationStep (c2wDF.estimateRows goZeroTime goZeroTime) 3 =
      max (c2wDF.estimateRows goZeroTime goZeroTime / (3 : Int).toNat) 1 ∧
    (c2wDF.extractSeries c2wFile [1] goZeroTime goZeroTime 3).times.length ≤
      ((seekLines c2wFile (c2wDF.findOffset goZeroTime).1).countP lineDecodes +
        decimationStep (c2wDF.estimateRows goZeroTime goZeroTime) 3 - 1) /
        decimationStep (c2wDF.estimateRows goZeroTime goZeroTime) 3 :=
  ⟨by decide,
   (extractSeries_decimation_bound c2wDF c2wFile [1] goZeroTime goZeroTime 3).2.1 (by decide),
   (extractSeries_decimation_bound c2wDF c2wFile [1] goZeroTime goZeroTime 3).2.2⟩

/-! ## Claim C4 — non-numeric, NaN and non-finite cells (corrected) -/

/-- A requested cell of a line that neither the multi-home decoder nor the
scalar parser accepts (vacuously true when the line does not decode or the
column is out of range). -/
def cellUnparsed (l : String) (idx : Int) : Bool :=
  match readCSVLine l with
  | none => true
  | some record =>
      if 0 ≤ idx ∧ idx.toNat < record.length then
        (parseDelimitedFloatValues (record.getD idx.toNat "") "/").isNone &&
          (parseFloatValue (record.getD idx.toNat "")).isNone
      else true

/-- When the requested cell fails both parsers (or is out of range), the
per-column emission body leaves the whole accumulator untouched. -/
theorem emitCol_id (record : List String) (cp i : Nat) (idx : Int)
    (st : List SeriesPayload × List (List Nat) × List Nat)
    (h : 0 ≤ idx ∧ idx.toNat < record.length →
      parseDelimitedFloatValues (record.getD idx.toNat "") "/" = none ∧
      parseFloatValue (record.getD idx.toNat "") = none) :
    emitCol record cp i idx st = st := by
  obtain ⟨series, seriesMap, vc⟩ := st
  unfold emitCol
  dsimp only
  split_ifs with hin
  · obtain ⟨h1, h2⟩ := h hin
    rw [h1, h2]
  · rfl

/-- When every requested cell of the record fails both parsers, emitting
the row only appends the timestamp and gives every series a 0.0 slot:
valid counts are untouched. -/
theorem emitRow_zero (cols : List Int) (ts : GoTime) (record : List String)
    (st : ExtractState)
    (h : ∀ idx ∈ cols, 0 ≤ idx ∧ idx.toNat < record.length →
      parseDelimitedFloatValues (record.getD idx.toNat "") "/" = none ∧
      parseFloatValue (record.getD idx.toNat "") = none) :
    (emitRow cols ts record st).validCounts = st.validCounts ∧
    (emitRow cols ts record st).series =
      st.series.map (fun sp => { sp with values := sp.values ++ [.finite 0] }) := by
  unfold emitRow
  dsimp only
  have hm : ∀ p ∈ cols.enum, p.2 ∈ cols := by
    intro p hp
    have hget := List.mem_enum_iff_getElem?.mp hp
    obtain ⟨hlt, heq⟩ := List.getElem?_eq_some.mp hget
    rw [← heq]
    exact List.getElem_mem hlt
  have hfold : ∀ (l : List (Nat × Int)) (acc : List SeriesPayload × List (List Nat) × List Nat),
      (∀ p ∈ l, p.2 ∈ cols) →
      l.foldl (fun acc (p : Nat × Int) =>
        emitCol record ((st.times ++ [ts.unixMilli]).length - 1) p.1 p.2 acc) acc = acc := by
    intro l
    induction l with
    | nil => intro acc _; rfl
    | cons p rest ihl =>
        intro acc hmem
        simp only [List.foldl_cons]
        rw [emitCol_id record _ p.1 p.2 acc (h p.2 (hmem p (List.mem_cons_self p rest)))]
        exact ihl acc (fun q hq => hmem q (List.mem_cons_of_mem p hq))
  rw [hfold cols.enum
    (st.series.map fun sp => { sp with values := sp.values ++ [.finite 0] },
      st.seriesMap, st.validCounts) hm]
  exact ⟨rfl, rfl⟩

/-- Scan-loop invariant for all-unparseable requested cells: valid counts
stay at the initial zeros and every stored value stays the 0.0 filler. -/
theorem extractLoop_zero (cols : List Int) (start stop : GoTime)
    (step startRow : Nat) :
    ∀ (lines : List String) (st : ExtractState),
      (∀ l ∈ lines, ∀ idx ∈ cols, cellUnparsed l idx = true) →
      st.validCounts = cols.map (fun _ => 0) →
      (∀ sp ∈ st.series, ∀ v ∈ sp.values, v = GoFloat.finite 0) →
      (extractLoop cols start stop step startRow lines st).validCounts =
        cols.map (fun _ => 0) ∧
      ∀ sp ∈ (extractLoop cols start stop step startRow lines st).series,
        ∀ v ∈ sp.values, v = GoFloat.finite 0 := by
  intro lines
  induction lines with
  | nil => intro st _ h1 h2; exact ⟨h1, h2⟩
  | cons l rest ih =>
      intro st hcell h1 h2
      have hcl := fun idx hidx => hcell l (List.mem_cons_self l rest) idx hidx
      have hrest := fun l' hl' => hcell l' (List.mem_cons_of_mem l hl')
      unfold extractLoop
      cases hcsv : readCSVLine l with
      | none => exact ih st hrest h1 h2
      | some record =>
          have hboth : ∀ idx ∈ cols, 0 ≤ idx ∧ idx.toNat < record.length →
              parseDelimitedFloatValues (record.getD idx.toNat "") "/" = none ∧
              parseFloatValue (record.getD idx.toNat "") = none := by
            intro idx hidx hin
            have := hcl idx hidx
            unfold cellUnparsed at this
            rw [hcsv] at this
            dsimp only at this
            rw [if_pos hin] at this
            rw [Bool.and_eq_true] at this
            obtain ⟨hA, hB⟩ := this
            exact ⟨Option.isNone_iff_eq_none.mp hA, Option.isNone_iff_eq_none.mp hB⟩
          dsimp only
          by_cases hr : record.length = 0
          · rw [if_pos hr]
            exact ih st hrest h1 h2
          · rw [if_neg hr]
            cases ht : parseTimeValue (record.headD "") with
            | none => exact ih _ hrest h1 h2
            | some p =>
                obtain ⟨timestamp, layout⟩ := p
                dsimp only
                by_cases h4 : !start.isZero ∧ timestamp.before start
                · rw [if_pos h4]
                  exact ih _ hrest h1 h2
                · rw [if_neg h4]
                  by_cases h5 : !stop.isZero ∧ timestamp.after stop
                  · rw [if_pos h5]
                    exact ⟨h1, h2⟩
                  · rw [if_neg h5]
                    by_cases h6 : (st.row - startRow) % step = 0
                    · rw [if_pos h6]
                      obtain ⟨hvc, hser⟩ := emitRow_zero cols timestamp record st hboth
                      refine ih _ hrest ?_ ?_ <;> dsimp only
                      · rw [hvc, h1]
                      · rw [hser]
                        intro sp hsp v hv
                        obtain ⟨a, ha, rfl⟩ := List.mem_map.mp hsp
                        dsimp only at hv
                        rcases List.mem_append.mp hv with hv | hv
                        · exact h2 a ha v hv
                        · simpa using hv
                    · rw [if_neg h6]
                      exact ih _ hrest h1 h2

/-- Concrete file whose one data cell is `NaN`, and the `DataFile` its
indexing produces. -/
def c4wFile : List String := ["Time,a\n", "2026-02-09 15:30:00,NaN\n"]

/-- The `DataFile` that `buildIndex` produces for `c4wFile`. -/
def c4wDF : DataFile :=
  { path := "w4.csv", label := "w4.csv", ownedTemp := false,
    columns := ["Time", "a"],
    index := [⟨1, 7, ⟨1770651000000⟩⟩], rows := 1,
    startTime := ⟨1770651000000⟩, endTime := ⟨1770651000000⟩,
    dataStartOffset := 7, timeLayout := "2006-01-02 15:04:05" }

/-- C4 counterexample: a `NaN` cell is accepted by the scalar parser, so
its series passes the valid-count filter and is returned holding the NaN —
`NaN` is *not* treated like a non-numeric cell, and the returned payload
has no finite entry at all. -/
theorem extractSeries_nan_cex :
    buildIndex "w4.csv" c4wFile = .ok c4wDF ∧
    parseFloatValue "NaN" = some GoFloat.nan ∧
    parseFloatValue "+Inf" = some GoFloat.posInf ∧
    (c4wDF.extractSeries c4wFile [1] goZeroTime goZeroTime 0).series =
      [⟨"a", [GoFloat.nan]⟩] ∧
    (⟨"a", [GoFloat.nan]⟩ : SeriesPayload).values.any NumberFinite = false :=
  ⟨rfl, by decide, by decide, by decide, by decide⟩

/-- C4 amended: a cell that fails both the multi-home and the scalar parser
never errors — its emitted slot stays the 0.0 filler and the valid count is
not incremented, so a column whose requested cells are all unparseable is
dropped by the zero-valid-count filter.  But `NaN`/`±Inf` cells *parse*:
they are written and counted like any value, so a returned payload is not
guaranteed a finite entry. -/
theorem extractSeries_nonnumeric_cells (df : DataFile) (file : List String)
    (cols : List Int) (start stop : GoTime) (maxPoints : Int)
    (h : ∀ l ∈ seekLines file (df.findOffset start).1, ∀ idx ∈ cols,
      cellUnparsed l idx = true) :
    (extractLoop cols start stop (decimationStep (df.estimateRows start stop) maxPoints)
        (df.findOffset start).2 (seekLines file (df.findOffset start).1)
        (extractInit df cols (df.findOffset start).2)).validCounts =
      cols.map (fun _ => 0) ∧
    (∀ sp ∈ (extractLoop cols start stop
        (decimationStep (df.estimateRows start stop) maxPoints)
        (df.findOffset start).2 (seekLines file (df.findOffset start).1)
        (extractInit df cols (df.findOffset start).2)).series,
      ∀ v ∈ sp.values, v = GoFloat.finite 0) ∧
    (df.extractSeries file cols start stop maxPoints).series = [] := by
  obtain ⟨hvc, hval⟩ := extractLoop_zero cols start stop
    (decimationStep (df.estimateRows start stop) maxPoints) (df.findOffset start).2
    (seekLines file (df.findOffset start).1)
    (extractInit df cols (df.findOffset start).2) h
    (by simp [extractInit])
    (by intro sp hsp v hv; simp [extractInit] at hsp; obtain ⟨a, ha, rfl⟩ := hsp; simp at hv)
  refine ⟨hvc, hval, ?_⟩
  unfold DataFile.extractSeries
  dsimp only
  have hz : ∀ k, (cols.map (fun _ => (0 : Nat))).getD k 0 = 0 := by
    intro k
    rw [List.getD_eq_getElem?_getD, List.getElem?_map]
    cases cols[k]? <;> simp
  rw [List.map_eq_nil_iff]
  rw [List.filter_eq_nil_iff]
  intro p hp
  rw [hvc]
  simp [hz]

/-- Witness file for `extractSeries_nonnumeric_cells`: its one data cell
`abc` fails both parsers. -/
def c4wFileB : List String := ["Time,a\n", "2026-02-09 15:30:00,abc\n"]

/-- The `DataFile` that `buildIndex` produces for `c4wFileB`. -/
def c4wDFB : DataFile :=
  { path := "w5.csv", label := "w5.csv", ownedTemp := false,
    columns := ["Time", "a"],
    index := [⟨1, 7, ⟨1770651000000⟩⟩], rows := 1,
    startTime := ⟨1770651000000⟩, endTime := ⟨1770651000000⟩,
    dataStartOffset := 7, timeLayout := "2006-01-02 15:04:05" }

/-- Witness for `extractSeries_nonnumeric_cells`: a file whose one data
cell is the non-numeric `abc` yields an empty series list. -/
theorem extractSeries_nonnumeric_cells_witness :
    (c4wDFB.extractSeries c4wFileB [1] goZeroTime goZeroTime 0).series = [] :=
  (extractSeries_nonnumeric_cells c4wDFB c4wFileB [1] goZeroTime goZeroTime 0
    (by decide)).2.2

/-- Witness for `extractSeries_values_align`: the single kept series of a
concrete extraction holds exactly one value for its one timestamp. -/
theorem extractSeries_values_align_witness :
    (⟨"a", [.finite 1]⟩ : SeriesPayload).values.length =
      (DataFile.extractSeries c1wDF c1wFile [1] goZeroTime goZeroTime 0).times.length :=
  (extractSeries_values_align c1wDF c1wFile [1] goZeroTime goZeroTime 0).2
    ⟨"a", [.finite 1]⟩ (by decide)

end EsxDoctor
